import Mathlib

/-!
# Verification of the LexLink citation engine

Shallow embedding of the citation consolidation engine, anchor classifier,
relevance ranking and extraction orchestrator of `src/lexlink/citation.py`
and `src/lexlink/ranking.py`, together with proofs settling the frozen
claims about them.

Conventions of the embedding:
* Python `Optional[int]` / `Optional[str]` fields become `Option Nat` /
  `Option String`; Python truthiness (`if x:`) of such fields is modelled by
  `truthyN` / `truthyS` (`None`, `0` and `""` are falsy).
* The in-place mutation of list entries in `consolidate_citations` is
  modelled by explicit state passing: `ConsState` carries the output list,
  and mutation of the last entry / the pending-article entry becomes
  `List.set`.  A second, heap-indexed model (`HeapState`) additionally
  tracks Python object identity for the aliasing/frame claims.
* `sorted(results, key=...)` in Python is a stable sort; it is embedded as
  a stable-by-construction insertion sort over the same key.
-/

namespace LexLink

/-- `Citation` dataclass of `citation.py` (lines 26-68).  Field names follow
the source.  `target_subitem` exists in the source but is never written by
the parser or consolidator except through the dataclass default. -/
structure Citation where
  target_text : String
  target_ref_id : String
  target_type : String
  target_law_name : Option String := none
  target_article : Option Nat := none
  target_article_branch : Option Nat := none
  target_paragraph : Option Nat := none
  target_item : Option Nat := none
  target_subitem : Option String := none
  citation_type : String := "unknown"
  link_class : String := ""
deriving DecidableEq, Repr, Inhabited

/-- Python truthiness of an `Optional[str]`: `None` and `""` are falsy. -/
def truthyS : Option String → Bool
  | none => false
  | some s => !(s == "")

/-- Python truthiness of an `Optional[int]`: `None` and `0` are falsy. -/
def truthyN : Option Nat → Bool
  | none => false
  | some n => !(n == 0)

/-- State carried through the `for citation in citations` loop of
`consolidate_citations` (lines 354-356): the output list built so far and
the two pending-context variables. -/
structure ConsState where
  out : List Citation
  current_external_law : Option String
  current_internal_article_idx : Option Nat
deriving DecidableEq, Repr

/-- The fresh citation built by the external-law fork (lines 403-414):
context copied from `last`, paragraph/item from the incoming fragment. -/
def forkFromExternal (last citation : Citation) : Citation :=
  { target_text := citation.target_text
    target_ref_id := citation.target_ref_id
    target_type := citation.target_type
    target_law_name := last.target_law_name
    target_article := last.target_article
    target_article_branch := last.target_article_branch
    target_paragraph := citation.target_paragraph
    target_item := citation.target_item
    target_subitem := none
    citation_type := "external"
    link_class := citation.link_class }

/-- The fresh citation built by the internal-article fork (lines 433-444). -/
def forkFromInternal (last_article citation : Citation) : Citation :=
  { target_text := citation.target_text
    target_ref_id := citation.target_ref_id
    target_type := citation.target_type
    target_law_name := last_article.target_law_name
    target_article := last_article.target_article
    target_article_branch := last_article.target_article_branch
    target_paragraph := citation.target_paragraph
    target_item := citation.target_item
    target_subitem := none
    citation_type := "internal"
    link_class := citation.link_class }

/-- In-place merge of a paragraph/item fragment into a target entry
(lines 416-421 and 446-451): set each field the fragment carries (Python
truthiness!) and append the fragment text. -/
def mergeParaItem (last citation : Citation) : Citation :=
  { last with
    target_paragraph :=
      if truthyN citation.target_paragraph then citation.target_paragraph
      else last.target_paragraph
    target_item :=
      if truthyN citation.target_item then citation.target_item
      else last.target_item
    target_text := last.target_text ++ " " ++ citation.target_text }

/-- Same-field collision test of lines 400-401 / 430-431 (Python `and`/`or`
on optional ints, hence truthiness). -/
def collide (citation target : Citation) : Bool :=
  (truthyN citation.target_paragraph && truthyN target.target_paragraph) ||
  (truthyN citation.target_item && truthyN target.target_item)

/-- One iteration of the loop body of `consolidate_citations`
(lines 358-457), dispatching on `link_class`.  A fragment whose class is
none of `sfon1`..`sfon4` leaves the state unchanged (the Python loop has no
matching branch).  The (unreachable in any run) case of a dangling
`current_internal_article_idx` pointing outside the output list — where
Python would raise `IndexError` — is modelled as a standalone append. -/
def consStep (s : ConsState) (citation : Citation) : ConsState :=
  if citation.link_class == "sfon1" then
    { out := s.out ++ [citation]
      current_external_law :=
        if citation.citation_type == "external" then citation.target_law_name
        else none
      current_internal_article_idx := none }
  else if citation.link_class == "sfon2" then
    -- fall-through of lines 384-388: new internal article reference
    let fallthrough : ConsState :=
      { out := s.out ++ [{ citation with citation_type := "internal" }]
        current_external_law := none
        current_internal_article_idx := some s.out.length }
    if truthyS s.current_external_law && decide (0 < s.out.length) then
      match s.out.getLast? with
      | none => fallthrough
      | some last =>
        if last.citation_type == "external" &&
            last.target_law_name == s.current_external_law then
          if last.target_article == none then
            -- merge article into the external-law citation (lines 376-381)
            { out := s.out.set (s.out.length - 1)
                { last with
                  target_article := citation.target_article
                  target_article_branch := citation.target_article_branch
                  target_text := last.target_text ++ " " ++ citation.target_text }
              current_external_law := s.current_external_law
              current_internal_article_idx := none }
          else fallthrough
        else fallthrough
    else fallthrough
  else if citation.link_class == "sfon3" || citation.link_class == "sfon4" then
    -- standalone paragraph/item reference (lines 454-457)
    let standalone : ConsState :=
      { out := s.out ++ [{ citation with citation_type := "internal" }]
        current_external_law := s.current_external_law
        current_internal_article_idx := s.current_internal_article_idx }
    if truthyS s.current_external_law && decide (0 < s.out.length) then
      match s.out.getLast? with
      | none => standalone
      | some last =>
        if last.citation_type == "external" &&
            last.target_law_name == s.current_external_law then
          if collide citation last then
            { out := s.out ++ [forkFromExternal last citation]
              current_external_law := s.current_external_law
              current_internal_article_idx := s.current_internal_article_idx }
          else
            { out := s.out.set (s.out.length - 1) (mergeParaItem last citation)
              current_external_law := s.current_external_law
              current_internal_article_idx := s.current_internal_article_idx }
        else standalone
    else
      match s.current_internal_article_idx with
      | none => standalone
      | some j =>
        match s.out.get? j with
        | none => standalone
        | some last_article =>
          if last_article.citation_type == "internal" &&
              truthyN last_article.target_article then
            if collide citation last_article then
              { out := s.out ++ [forkFromInternal last_article citation]
                current_external_law := s.current_external_law
                current_internal_article_idx := s.current_internal_article_idx }
            else
              { out := s.out.set j (mergeParaItem last_article citation)
                current_external_law := s.current_external_law
                current_internal_article_idx := s.current_internal_article_idx }
          else standalone
  else s

/-- Initial consolidation state (empty output, no pending context). -/
def consInit : ConsState := ⟨[], none, none⟩

/-- The loop of `consolidate_citations` run from the initial state. -/
def consRun (citations : List Citation) : ConsState :=
  citations.foldl consStep consInit

/-- `consolidate_citations` (lines 336-459) as a fold of `consStep`.
The early return for an empty input is the same as folding over `[]`. -/
def consolidate (citations : List Citation) : List Citation :=
  (consRun citations).out

/-! ## Anchor classifier and field parser (`_parse_single_link`, lines 265-334)

The regex searches of `citation.py` are embedded as left-to-right scanners
over the character list, reproducing Python `re.search` leftmost-match
semantics for each concrete pattern. -/

/-- Numeric value of a digit run (the regex groups are `\d+` so the digits
are ASCII `0`-`9`). -/
def digitsVal (ds : List Char) : Nat :=
  ds.foldl (fun acc c => acc * 10 + (c.toNat - 48)) 0

/-- `re.search` for `제(\d+)항` / `제(\d+)호` (`PARAGRAPH_PATTERN`,
`ITEM_PATTERN`): first position where `제`, one or more digits and the
closing character match; otherwise keep scanning. -/
def findJeNum (close : Char) : List Char → Option Nat
  | [] => none
  | c :: rest =>
    if c = '제' then
      let ds := rest.takeWhile Char.isDigit
      if !ds.isEmpty && ((rest.dropWhile Char.isDigit).head? == some close) then
        some (digitsVal ds)
      else findJeNum close rest
    else findJeNum close rest

/-- `re.search` for `제(\d+)조(?:의(\d+))?` (`ARTICLE_PATTERN`): article
number plus optional branch number. -/
def findArticleNum : List Char → Option (Nat × Option Nat)
  | [] => none
  | c :: rest =>
    if c = '제' then
      let ds := rest.takeWhile Char.isDigit
      match ds.isEmpty, rest.dropWhile Char.isDigit with
      | false, '조' :: rest3 =>
        let branch :=
          match rest3 with
          | '의' :: r4 =>
            let bs := r4.takeWhile Char.isDigit
            if bs.isEmpty then none else some (digitsVal bs)
          | _ => none
        some (digitsVal ds, branch)
      | _, _ => findArticleNum rest
    else findArticleNum rest

/-- `re.search` for `「([^」]+)」` (`LAW_NAME_PATTERN`): first `「` followed
by a non-empty bracket-free run and a closing `」`. -/
def findLawName : List Char → Option String
  | [] => none
  | c :: rest =>
    if c = '「' then
      let inner := rest.takeWhile (· ≠ '」')
      if !inner.isEmpty && ((rest.dropWhile (· ≠ '」')).head? == some '」') then
        some (String.mk inner)
      else findLawName rest
    else findLawName rest

/-- Python `needle in haystack` on strings, as character lists. -/
def hasInfix : List Char → List Char → Bool
  | needle, [] => needle.isEmpty
  | needle, c :: rest => needle.isPrefixOf (c :: rest) || hasInfix needle rest

/-- Python `haystack.find(needle)` restricted to the found case: index of
the leftmost occurrence. -/
def findOccIdx : List Char → List Char → Option Nat
  | needle, [] => if needle.isEmpty then some 0 else none
  | needle, c :: rest =>
    if needle.isPrefixOf (c :: rest) then some 0
    else (findOccIdx needle rest).map (· + 1)

/-- Link-class determination of lines 284-288: the first CSS class starting
with `sfon`, else `""`. -/
def sfonClassOf (classes : List String) : String :=
  match classes.find? (fun cls => "sfon".data.isPrefixOf cls.data) with
  | some c => c
  | none => ""

/-- `_parse_single_link` (lines 265-334) after the `fncLsLawPop` directive
has been matched (a link whose `onclick` does not match the directive is
skipped by the caller and never becomes a `Citation`): build the fragment
and parse the marker-specific fields, best-effort. -/
def parseSingleLink (link_text : String) (classes : List String)
    (ref_id ref_type source_law_name : String) : Citation :=
  let link_class := sfonClassOf classes
  let base : Citation :=
    { target_text := link_text
      target_ref_id := ref_id
      target_type := ref_type
      citation_type := "unknown"
      link_class := link_class }
  if link_class == "sfon1" then
    match findLawName link_text.data with
    | some nm =>
      { base with target_law_name := some nm, citation_type := "external" }
    | none =>
      if hasInfix "같은 법".data link_text.data ||
          hasInfix "이 법".data link_text.data then
        { base with citation_type := "internal"
                    target_law_name := some source_law_name }
      else
        { base with target_law_name := some link_text
                    citation_type := "external" }
  else if link_class == "sfon2" then
    match findArticleNum link_text.data with
    | some (a, b) =>
      { base with citation_type := "internal"
                  target_article := some a
                  target_article_branch := b }
    | none => { base with citation_type := "internal" }
  else if link_class == "sfon3" then
    match findJeNum '항' link_text.data with
    | some n =>
      { base with citation_type := "internal", target_paragraph := some n }
    | none => { base with citation_type := "internal" }
  else if link_class == "sfon4" then
    match findJeNum '호' link_text.data with
    | some n =>
      { base with citation_type := "internal", target_item := some n }
    | none => { base with citation_type := "internal" }
  else base

/-! ## Relevance ranking (`ranking.py`, `rank_search_results`, lines 12-102)

Python's `str.lower()` is modelled with the ASCII case map (the Korean
strings of this code base are caseless), `str.strip()` with `String.trim`,
and the stable built-in `sorted` with a stable-by-construction insertion
sort over the same key. -/

/-- A search-result record: an opaque field-name/value mapping. -/
def RankRecord := List (String × String)

instance : DecidableEq RankRecord := by
  unfold RankRecord
  infer_instance

instance : Inhabited RankRecord := ⟨([] : List (String × String))⟩

/-- `result.get(name_field, '')`. -/
def getField (r : RankRecord) (f : String) : String :=
  match (show List (String × String) from r).find? (fun p => p.1 == f) with
  | some p => p.2
  | none => ""

/-- `str.lower()` (ASCII case map; Korean characters are caseless). -/
def pyLower (s : String) : String := String.mk (s.data.map Char.toLower)

/-- `str.strip()` (trim surrounding whitespace). -/
def pyStrip (s : String) : String :=
  String.mk
    (((s.data.dropWhile Char.isWhitespace).reverse.dropWhile
      Char.isWhitespace).reverse)

/-- The 5-tuple scoring key of `calculate_score` (lines 55-98), translated
from the source control flow: sentinel for empty names, then exact /
starts-with / first-occurrence word boundary / contains / length. -/
def calculate_score (name_field query : String) (result : RankRecord) :
    Nat × Nat × Nat × Nat × Nat :=
  let name := pyStrip (getField result name_field)
  if name == "" then (999, 999, 999, 999, name.length)
  else
    let query_lower := pyStrip (pyLower query)
    let name_lower := pyLower name
    let exact_match := if name_lower == query_lower then 0 else 1
    let starts_with :=
      if query_lower.data.isPrefixOf name_lower.data then 0 else 1
    let word_match :=
      if hasInfix query_lower.data name_lower.data then
        match findOccIdx query_lower.data name_lower.data with
        | some idx =>
          if idx == 0 || name_lower.data.get? (idx - 1) == some ' ' then 0
          else 1
        | none => 1
      else 1
    let contains := if hasInfix query_lower.data name_lower.data then 0 else 1
    (exact_match, starts_with, word_match, contains, name.length)

/-- Lexicographic `≤` on the 5-tuple keys (how Python compares the tuples
returned by the sort key). -/
def tupLE (a b : Nat × Nat × Nat × Nat × Nat) : Bool :=
  decide (a.1 < b.1) ||
  (a.1 == b.1 && (decide (a.2.1 < b.2.1) ||
    (a.2.1 == b.2.1 && (decide (a.2.2.1 < b.2.2.1) ||
      (a.2.2.1 == b.2.2.1 && (decide (a.2.2.2.1 < b.2.2.2.1) ||
        (a.2.2.2.1 == b.2.2.2.1 && decide (a.2.2.2.2 ≤ b.2.2.2.2))))))))

/-- Stable insertion: place `x` immediately before the first element it is
`le`-below-or-equal; ties keep `x` (the earlier input element) first. -/
def insertStable (le : α → α → Bool) (x : α) : List α → List α
  | [] => [x]
  | y :: ys => if le x y then x :: y :: ys else y :: insertStable le x ys

/-- Stable sort by insertion.  Python's `sorted` is a stable sort, and a
stable sort w.r.t. a total transitive `le` is unique, so this is
extensionally `sorted(·, key=...)`. -/
def stableSortBy (le : α → α → Bool) : List α → List α
  | [] => []
  | x :: xs => insertStable le x (stableSortBy le xs)

/-- `rank_search_results` (lines 12-102): early return on an empty result
list or falsy query, else the stable sort by `calculate_score`. -/
def rank_search_results (results : List RankRecord) (query name_field : String) :
    List RankRecord :=
  if results.isEmpty || query == "" then results
  else
    stableSortBy
      (fun a b => tupLE (calculate_score name_field query a)
        (calculate_score name_field query b)) results

/-! ## Extraction orchestrator (`extract_citations`, lines 461-541)

The two external collaborators (law-page lookup producing `lsiSeq`,
article-HTML fetch) and the HTML anchor scan are out of scope per the spec
(§1, §6); their results enter as parameters: the looked-up id, the fetched
HTML, and the fragment list `parse_citations` yields for that HTML.
Wall-clock time is not modelled (`processing_time_ms` is 0). -/

/-- `CitationResult` dataclass (lines 71-107).  `citations` keeps the
structured records (the source stores their dict serialisations). -/
structure CitationResult where
  success : Bool
  law_id : String
  law_name : String
  article : String
  citation_count : Nat
  citations : List Citation
  internal_count : Nat := 0
  external_count : Nat := 0
  extraction_method : String := "html"
  processing_time_ms : Nat := 0
  errors : List String := []
deriving DecidableEq, Repr

/-- Article display string of lines 484-486: `제N조` with `의M` only for a
positive branch. -/
def articleDisplay (article article_branch : Nat) : String :=
  "제" ++ toString article ++ "조" ++
    (if article_branch > 0 then "의" ++ toString article_branch else "")

/-- `extract_citations` (lines 461-541).  `lsi_seq` is the lookup
collaborator's answer (`None` on failure), `html` the fetch collaborator's
answer, and `parsed` the fragment list the anchor scan produces from that
HTML.  Python truthiness guards both failure branches (`if not lsi_seq`,
`if not html`). -/
def extract_citations (lsi_seq html : Option String) (parsed : List Citation)
    (mst law_name : String) (article article_branch : Nat) : CitationResult :=
  let article_display := articleDisplay article article_branch
  if !truthyS lsi_seq then
    { success := false
      law_id := mst
      law_name := law_name
      article := article_display
      citation_count := 0
      citations := []
      errors := ["Could not get lsiSeq for " ++ law_name ++
        ". Law may not exist or name may be incorrect."] }
  else if !truthyS html then
    { success := false
      law_id := mst
      law_name := law_name
      article := article_display
      citation_count := 0
      citations := []
      errors := ["Could not fetch HTML for " ++ article_display ++
        ". Article may not exist."] }
  else
    let consolidated := consolidate parsed
    { success := true
      law_id := mst
      law_name := law_name
      article := article_display
      citation_count := consolidated.length
      citations := consolidated
      internal_count :=
        (consolidated.filter (fun c => c.citation_type == "internal")).length
      external_count :=
        (consolidated.filter (fun c => c.citation_type == "external")).length
      extraction_method := "html"
      processing_time_ms := 0
      errors := [] }

/-! ## Heap-indexed consolidation (object identity / aliasing model)

`consolidate_citations` appends the incoming Python `Citation` objects
themselves to the output and mutates them in place through the
`consolidated[-1]` / `consolidated[idx]` aliases.  To talk about mutation
of the *input* objects, this second model runs the same loop over object
addresses: addresses `0..n-1` are the input fragments, forked citations are
allocated at the end of the heap, and the output is a list of addresses. -/

/-- Loop state of the aliasing model: the heap of citation objects, the
output as a list of heap addresses, and the two pending-context
variables. -/
structure HeapState where
  heap : List Citation
  out : List Nat
  current_external_law : Option String
  current_internal_article_idx : Option Nat
deriving DecidableEq, Repr

/-- Heap read (addresses used by a run are always in range). -/
def heapGet (h : List Citation) (a : Nat) : Citation :=
  (h.get? a).getD default

/-- One loop iteration of `consolidate_citations` over the object at
address `a`, mutating the heap exactly where the Python code mutates an
object: the aliased last output entry, the aliased pending-article entry,
or the incoming fragment itself (its `citation_type`). -/
def consStepH (s : HeapState) (a : Nat) : HeapState :=
  let citation := heapGet s.heap a
  if citation.link_class == "sfon1" then
    { s with
      out := s.out ++ [a]
      current_external_law :=
        if citation.citation_type == "external" then citation.target_law_name
        else none
      current_internal_article_idx := none }
  else if citation.link_class == "sfon2" then
    let fallthrough : HeapState :=
      { s with
        heap := s.heap.set a { citation with citation_type := "internal" }
        out := s.out ++ [a]
        current_external_law := none
        current_internal_article_idx := some s.out.length }
    if truthyS s.current_external_law && decide (0 < s.out.length) then
      match s.out.getLast? with
      | none => fallthrough
      | some lastAddr =>
        let last := heapGet s.heap lastAddr
        if last.citation_type == "external" &&
            last.target_law_name == s.current_external_law then
          if last.target_article == none then
            { s with
              heap := s.heap.set lastAddr
                { last with
                  target_article := citation.target_article
                  target_article_branch := citation.target_article_branch
                  target_text := last.target_text ++ " " ++ citation.target_text }
              current_internal_article_idx := none }
          else fallthrough
        else fallthrough
    else fallthrough
  else if citation.link_class == "sfon3" || citation.link_class == "sfon4" then
    let standalone : HeapState :=
      { s with
        heap := s.heap.set a { citation with citation_type := "internal" }
        out := s.out ++ [a] }
    if truthyS s.current_external_law && decide (0 < s.out.length) then
      match s.out.getLast? with
      | none => standalone
      | some lastAddr =>
        let last := heapGet s.heap lastAddr
        if last.citation_type == "external" &&
            last.target_law_name == s.current_external_law then
          if collide citation last then
            { s with
              heap := s.heap ++ [forkFromExternal last citation]
              out := s.out ++ [s.heap.length] }
          else
            { s with heap := s.heap.set lastAddr (mergeParaItem last citation) }
        else standalone
    else
      match s.current_internal_article_idx with
      | none => standalone
      | some j =>
        match s.out.get? j with
        | none => standalone
        | some tgtAddr =>
          let last_article := heapGet s.heap tgtAddr
          if last_article.citation_type == "internal" &&
              truthyN last_article.target_article then
            if collide citation last_article then
              { s with
                heap := s.heap ++ [forkFromInternal last_article citation]
                out := s.out ++ [s.heap.length] }
            else
              { s with
                heap := s.heap.set tgtAddr (mergeParaItem last_article citation) }
          else standalone
  else s

/-- The aliasing model of `consolidate_citations`: fold the loop body over
the addresses of the input fragments. -/
def consolidateH (citations : List Citation) : HeapState :=
  (List.range citations.length).foldl consStepH ⟨citations, [], none, none⟩

/-- Simulation relation between the heap model and the value model after
the first `a` of the `fs.length` input fragments have been processed:
the value-model output is the pointwise reading of the heap-model output,
the context variables agree, unprocessed input objects are untouched, and
output addresses are in range, distinct, and never point at unprocessed
inputs. -/
def HeapAgree (fs : List Citation) (a : Nat) (sh : HeapState)
    (sp : ConsState) : Prop :=
  sp.out = sh.out.map (heapGet sh.heap) ∧
  sp.current_external_law = sh.current_external_law ∧
  sp.current_internal_article_idx = sh.current_internal_article_idx ∧
  fs.length ≤ sh.heap.length ∧
  (∀ i, a ≤ i → i < fs.length → sh.heap.get? i = fs.get? i) ∧
  (∀ p ∈ sh.out, p < sh.heap.length ∧ (p < a ∨ fs.length ≤ p)) ∧
  sh.out.Nodup

/-! ## Structure of consolidated outputs (proof machinery for idempotence)

For inputs without law-name fragments the consolidator's output consists of
standalone paragraph/item entries and article blocks: an internal `sfon2`
head followed by fork entries that copied the head's law/article/branch and
collide with it.  `scanB` checks this shape; it is exactly what a second
consolidation pass reproduces verbatim. -/

/-- Paragraph-or-item marker class. -/
def isSfon34 (c : Citation) : Bool :=
  c.link_class == "sfon3" || c.link_class == "sfon4"

/-- An internal article entry, as appended by the `sfon2` fall-through. -/
def headOK (c : Citation) : Bool :=
  c.link_class == "sfon2" && c.citation_type == "internal"

/-- A standalone paragraph/item entry, as appended by lines 454-457. -/
def standaloneOK (c : Citation) : Bool :=
  isSfon34 c && c.citation_type == "internal"

/-- A fork entry belonging to the article block headed by `hd`: fields
copied from the head, own paragraph/item colliding with the head. -/
def forkOK (c hd : Citation) : Bool :=
  isSfon34 c && c.citation_type == "internal" &&
  c.target_law_name == hd.target_law_name &&
  c.target_article == hd.target_article &&
  c.target_article_branch == hd.target_article_branch &&
  c.target_subitem == none &&
  collide c hd

/-- Shape check for consolidated law-name-free output, threading the
current article-block head. -/
def scanB : Option Citation → List Citation → Bool
  | _, [] => true
  | h, c :: rest =>
    if headOK c then scanB (some c) rest
    else
      match h with
      | none => standaloneOK c && scanB none rest
      | some hd =>
        (if truthyN hd.target_article then forkOK c hd else standaloneOK c) &&
          scanB (some hd) rest

/-- The last article-block head of a list (mirrors the head threading of
`scanB`). -/
def scanHead (h : Option Citation) (l : List Citation) : Option Citation :=
  l.foldl (fun acc c => if headOK c then some c else acc) h

/-- Loop invariant for a consolidation run over a law-name-free fragment
list: no external context, the output scans as well-shaped, and the
pending-article index points at the last head of the output (or there is
no head at all). -/
def InternalShape (s : ConsState) : Prop :=
  s.current_external_law = none ∧ scanB none s.out = true ∧
  ((s.current_internal_article_idx = none ∧
      ∀ x ∈ s.out, headOK x = false) ∨
   (∃ j hd, s.current_internal_article_idx = some j ∧
      s.out.get? j = some hd ∧ headOK hd = true ∧
      ∀ x ∈ s.out.drop (j + 1), headOK x = false))

/-! ## Spec-modelled ranking score (for the refinement check of claim C7) -/

/-- Some occurrence of `needle` in the haystack starts at a word boundary
(start of string, or the preceding character is a space).  `prev` is the
character just before the current position. -/
def boundaryOccAux (needle : List Char) : Option Char → List Char → Bool
  | prev, [] => needle.isEmpty && (prev == none || prev == some ' ')
  | prev, c :: rest =>
    (needle.isPrefixOf (c :: rest) && (prev == none || prev == some ' ')) ||
      boundaryOccAux needle (some c) rest

/-- `needle` occurs somewhere in `hay` at a word boundary. -/
def boundaryOccExists (needle hay : List Char) : Bool :=
  boundaryOccAux needle none hay

/-- The *first* occurrence of `needle` in `hay` is at a word boundary. -/
def firstOccBoundary (needle hay : List Char) : Bool :=
  match findOccIdx needle hay with
  | some 0 => true
  | some (i + 1) => hay.get? i == some ' '
  | none => false

/-- Modelled from the spec (claim C7 wording, literally): the ascending
5-tuple `(exact, starts-with, query occurs at a word boundary, contains,
length)` with sentinel values for empty fields.  The third component reads
"0 if the query occurs at a word boundary", i.e. *some* occurrence is at a
boundary.  Names are normalised (trimmed, case-folded) as in the source. -/
def specScoreClaimed (name_field query : String) (result : RankRecord) :
    Nat × Nat × Nat × Nat × Nat :=
  let name := pyStrip (getField result name_field)
  if name == "" then (999, 999, 999, 999, 0)
  else
    let q := pyStrip (pyLower query)
    let n := pyLower name
    ((if n == q then 0 else 1),
     (if q.data.isPrefixOf n.data then 0 else 1),
     (if boundaryOccExists q.data n.data then 0 else 1),
     (if hasInfix q.data n.data then 0 else 1),
     name.length)

/-- The amended C7 tuple: as claimed, except that the word-boundary
component looks at the *first* occurrence of the query only (which is what
`ranking.py` computes via `str.find`). -/
def specScoreAmended (name_field query : String) (result : RankRecord) :
    Nat × Nat × Nat × Nat × Nat :=
  let name := pyStrip (getField result name_field)
  if name == "" then (999, 999, 999, 999, 0)
  else
    let q := pyStrip (pyLower query)
    let n := pyLower name
    ((if n == q then 0 else 1),
     (if q.data.isPrefixOf n.data then 0 else 1),
     (if firstOccBoundary q.data n.data then 0 else 1),
     (if hasInfix q.data n.data then 0 else 1),
     name.length)

/-! ## Concrete inputs used by the claims -/

/-- Law-name fragment `「형법」` as the anchor classifier produces it. -/
def fragLaw : Citation :=
  parseSingleLink "「형법」" ["link", "sfon1"] "001706" "ALLJO" "소득세법"

/-- Article fragment `제20조`. -/
def fragArt20 : Citation :=
  parseSingleLink "제20조" ["link", "sfon2"] "001706" "JO" "소득세법"

/-- Article fragment `제7조`. -/
def fragArt7 : Citation :=
  parseSingleLink "제7조" ["link", "sfon2"] "001706" "JO" "소득세법"

/-- Article fragment whose text `제조` carries no article number, so the
best-effort parse leaves `target_article = none`. -/
def fragArtNoNum : Citation :=
  parseSingleLink "제조" ["link", "sfon2"] "001706" "JO" "소득세법"

/-- Paragraph fragment `제1항`. -/
def fragPara1 : Citation :=
  parseSingleLink "제1항" ["link", "sfon3"] "001706" "JO" "소득세법"

/-- Paragraph fragment whose text `제항` carries no paragraph number, so
the best-effort parse leaves `target_paragraph = none`. -/
def fragParaNoNum : Citation :=
  parseSingleLink "제항" ["link", "sfon3"] "001706" "JO" "소득세법"

/-- Paragraph fragment `제3항`. -/
def fragPara3 : Citation :=
  parseSingleLink "제3항" ["link", "sfon3"] "001706" "JO" "소득세법"

/-- An anchor without any `sfon` marker class: classified with
`link_class = ""`, which the consolidation loop ignores. -/
def fragGarbage : Citation :=
  parseSingleLink "별표" ["link"] "001706" "JO" "소득세법"

/-- A hypothetical mid-loop state for claim C1: `pending_external_law` is
set while the last (and only) output entry is a pending *internal* article
entry that `pending_internal_index` points at.  (The C1 theorem proves such
a state never occurs in a run of `consolidate`.) -/
def hypotheticalState : ConsState :=
  ⟨consolidate [fragArt20], some "형법", some 0⟩

/-- Search-result record `난민법`. -/
def recNanmin : RankRecord := [("법령명한글", "난민법")]

/-- Search-result record `민법`. -/
def recMinbeop : RankRecord := [("법령명한글", "민법")]

/-- Search-result record `민법 시행령`. -/
def recMinbeopSi : RankRecord := [("법령명한글", "민법 시행령")]

/-- Search-result record `난민법 민법`: the query `민법` first occurs at a
non-boundary position, but a later occurrence is preceded by a space. -/
def recBoundary : RankRecord := [("법령명한글", "난민법 민법")]

/-! # Theorems -/

/-! ## General helper lemmas -/

theorem getLast?_set_last {α : Type _} (l : List α) (a : α) (h : l ≠ []) :
    (l.set (l.length - 1) a).getLast? = some a := by
  have hl : 0 < l.length := List.length_pos.2 h
  have h1 : l.length - 1 < l.length := by omega
  rw [List.set_eq_take_append_cons_drop, if_pos h1]
  have h2 : l.drop (l.length - 1 + 1) = [] := by
    apply List.drop_eq_nil_of_le
    omega
  rw [h2, List.getLast?_concat]

theorem mem_of_getLast?_eq_some {α : Type _} {l : List α} {a : α}
    (h : l.getLast? = some a) : a ∈ l := by
  induction l with
  | nil => simp at h
  | cons x t ih =>
    cases t with
    | nil =>
      simp only [List.getLast?_singleton, Option.some.injEq] at h
      simp [h]
    | cons y t2 =>
      rw [List.getLast?_cons_cons] at h
      exact List.mem_cons_of_mem x (ih h)

theorem ne_nil_of_getLast?_eq_some {α : Type _} {l : List α} {a : α}
    (h : l.getLast? = some a) : l ≠ [] := by
  intro hnil
  rw [hnil] at h
  simp at h

/-- Record-update identity: re-setting `citation_type` to its current value
changes nothing. -/
theorem set_internal_self {c : Citation} (h : c.citation_type = "internal") :
    ({ c with citation_type := "internal" } : Citation) = c := by
  cases c
  simp_all

/-! ## Claim C2: the merge example -/

/-- C2.  Consolidating the three classifier fragments
`law-name("「형법」")`, `article("제20조")`, `paragraph("제1항")` yields
exactly one citation with `law_name = 형법`, `article = 20`,
`paragraph = 1` and external scope. -/
theorem consolidate_merge_example :
    consolidate [fragLaw, fragArt20, fragPara1] =
      [{ target_text := "「형법」 제20조 제1항"
         target_ref_id := "001706"
         target_type := "ALLJO"
         target_law_name := some "형법"
         target_article := some 20
         target_article_branch := none
         target_paragraph := some 1
         target_item := none
         target_subitem := none
         citation_type := "external"
         link_class := "sfon1" }] := by
  decide

/-! ## Claim C3: the fork example -/

/-- C3.  Consolidating `article("제20조")`, `paragraph("제1항")`,
`paragraph("제3항")` (no preceding law name) yields exactly two internal
citations with article 20, carrying paragraph 1 and paragraph 3
respectively: the second paragraph forks instead of overwriting the
first. -/
theorem consolidate_fork_example :
    consolidate [fragArt20, fragPara1, fragPara3] =
      [{ fragArt20 with
          target_paragraph := some 1
          target_text := "제20조 제1항" },
       { fragPara3 with target_article := some 20 }] ∧
    fragArt20.citation_type = "internal" ∧
    fragPara3.citation_type = "internal" := by
  refine ⟨by decide, by decide, by decide⟩

/-! ## Claim C1: the internal fallback target behind external context

The loop uses `elif` for the internal-article target, so a paragraph/item
fragment arriving while `current_external_law` is truthy and the output
non-empty never even looks at `current_internal_article_idx`
(`paragraph_standalone_in_hypothetical_state`).  This is unobservable in
any run because whenever `current_external_law` is truthy,
`current_internal_article_idx` is `None` and the last output entry is an
external entry with the matching law name
(`external_context_invariant`). -/

/-! ### Branch equations for `consStep` -/

theorem isSfon34_classes {c : Citation} (h : isSfon34 c = true) :
    c.link_class = "sfon3" ∨ c.link_class = "sfon4" := by
  simpa [isSfon34] using h

theorem consStep_eq_other (s : ConsState) (c : Citation)
    (h1 : c.link_class ≠ "sfon1") (h2 : c.link_class ≠ "sfon2")
    (h3 : c.link_class ≠ "sfon3") (h4 : c.link_class ≠ "sfon4") :
    consStep s c = s := by
  simp [consStep, h1, h2, h3, h4]

theorem consStep_eq_sfon1_ext (s : ConsState) (c : Citation)
    (h : c.link_class = "sfon1") (he : c.citation_type = "external") :
    consStep s c = ⟨s.out ++ [c], c.target_law_name, none⟩ := by
  simp [consStep, h, he]

theorem consStep_eq_sfon1_notExt (s : ConsState) (c : Citation)
    (h : c.link_class = "sfon1") (he : c.citation_type ≠ "external") :
    consStep s c = ⟨s.out ++ [c], none, none⟩ := by
  simp [consStep, h, he]

theorem consStep_eq_sfon2_merge (s : ConsState) (c last : Citation)
    (h : c.link_class = "sfon2")
    (hlast : s.out.getLast? = some last)
    (hx : truthyS s.current_external_law = true)
    (ht : last.citation_type = "external")
    (hl : last.target_law_name = s.current_external_law)
    (ha : last.target_article = none) :
    consStep s c =
      ⟨s.out.set (s.out.length - 1)
        { last with
          target_article := c.target_article
          target_article_branch := c.target_article_branch
          target_text := last.target_text ++ " " ++ c.target_text },
       s.current_external_law, none⟩ := by
  have hlen : 0 < s.out.length :=
    List.length_pos.2 (ne_nil_of_getLast?_eq_some hlast)
  simp [consStep, h, hx, hlen, hlast, ht, hl, ha]

theorem consStep_eq_sfon2_fall_extFalse (s : ConsState) (c : Citation)
    (h : c.link_class = "sfon2")
    (hx : truthyS s.current_external_law = false) :
    consStep s c =
      ⟨s.out ++ [{ c with citation_type := "internal" }], none,
       some s.out.length⟩ := by
  simp [consStep, h, hx]

theorem consStep_eq_sfon2_fall_mismatch (s : ConsState) (c last : Citation)
    (h : c.link_class = "sfon2")
    (hlast : s.out.getLast? = some last)
    (hcond : (last.citation_type == "external" &&
      last.target_law_name == s.current_external_law) = false) :
    consStep s c =
      ⟨s.out ++ [{ c with citation_type := "internal" }], none,
       some s.out.length⟩ := by
  cases hx : truthyS s.current_external_law with
  | false => simp [consStep, h, hx]
  | true =>
    have hlen : 0 < s.out.length :=
      List.length_pos.2 (ne_nil_of_getLast?_eq_some hlast)
    have hcond2 : ¬(last.citation_type = "external" ∧
        last.target_law_name = s.current_external_law) := by
      simpa using hcond
    simp [consStep, h, hx, hlen, hlast, hcond2]

theorem consStep_eq_sfon2_fall_article (s : ConsState) (c last : Citation)
    (h : c.link_class = "sfon2")
    (hlast : s.out.getLast? = some last)
    (ha : last.target_article ≠ none) :
    consStep s c =
      ⟨s.out ++ [{ c with citation_type := "internal" }], none,
       some s.out.length⟩ := by
  cases hx : truthyS s.current_external_law with
  | false => simp [consStep, h, hx]
  | true =>
    have hlen : 0 < s.out.length :=
      List.length_pos.2 (ne_nil_of_getLast?_eq_some hlast)
    cases hcond : (last.citation_type == "external" &&
        last.target_law_name == s.current_external_law) with
    | false =>
      simp only [consStep, h, hx, hlen, hlast, hcond]
      simp
    | true =>
      simp only [consStep, h, hx, hlen, hlast, hcond]
      simp [ha]

theorem consStep_eq_sfon34_extFork (s : ConsState) (c last : Citation)
    (h34 : isSfon34 c = true)
    (hlast : s.out.getLast? = some last)
    (hx : truthyS s.current_external_law = true)
    (ht : last.citation_type = "external")
    (hl : last.target_law_name = s.current_external_law)
    (hcol : collide c last = true) :
    consStep s c =
      ⟨s.out ++ [forkFromExternal last c], s.current_external_law,
       s.current_internal_article_idx⟩ := by
  have hlen : 0 < s.out.length :=
    List.length_pos.2 (ne_nil_of_getLast?_eq_some hlast)
  rcases isSfon34_classes h34 with hc | hc <;>
    simp [consStep, hc, hx, hlen, hlast, ht, hl, hcol]

theorem consStep_eq_sfon34_extMerge (s : ConsState) (c last : Citation)
    (h34 : isSfon34 c = true)
    (hlast : s.out.getLast? = some last)
    (hx : truthyS s.current_external_law = true)
    (ht : last.citation_type = "external")
    (hl : last.target_law_name = s.current_external_law)
    (hcol : collide c last = false) :
    consStep s c =
      ⟨s.out.set (s.out.length - 1) (mergeParaItem last c),
       s.current_external_law, s.current_internal_article_idx⟩ := by
  have hlen : 0 < s.out.length :=
    List.length_pos.2 (ne_nil_of_getLast?_eq_some hlast)
  rcases isSfon34_classes h34 with hc | hc <;>
    simp [consStep, hc, hx, hlen, hlast, ht, hl, hcol]

theorem consStep_eq_sfon34_extMismatch (s : ConsState) (c last : Citation)
    (h34 : isSfon34 c = true)
    (hlast : s.out.getLast? = some last)
    (hx : truthyS s.current_external_law = true)
    (hcond : (last.citation_type == "external" &&
      last.target_law_name == s.current_external_law) = false) :
    consStep s c =
      ⟨s.out ++ [{ c with citation_type := "internal" }],
       s.current_external_law, s.current_internal_article_idx⟩ := by
  have hlen : 0 < s.out.length :=
    List.length_pos.2 (ne_nil_of_getLast?_eq_some hlast)
  have hcond2 : ¬(last.citation_type = "external" ∧
      last.target_law_name = s.current_external_law) := by
    simpa using hcond
  rcases isSfon34_classes h34 with hc | hc <;>
    simp [consStep, hc, hx, hlen, hlast, hcond2]

theorem consStep_eq_sfon34_idxNone (s : ConsState) (c : Citation)
    (h34 : isSfon34 c = true)
    (hg : (truthyS s.current_external_law &&
      decide (0 < s.out.length)) = false)
    (hidx : s.current_internal_article_idx = none) :
    consStep s c =
      ⟨s.out ++ [{ c with citation_type := "internal" }],
       s.current_external_law, s.current_internal_article_idx⟩ := by
  rcases isSfon34_classes h34 with hc | hc <;>
    simp [consStep, hc, hg, hidx]

theorem consStep_eq_sfon34_idxBad (s : ConsState) (c : Citation) (j : Nat)
    (h34 : isSfon34 c = true)
    (hg : (truthyS s.current_external_law &&
      decide (0 < s.out.length)) = false)
    (hidx : s.current_internal_article_idx = some j)
    (hj : s.out.get? j = none) :
    consStep s c =
      ⟨s.out ++ [{ c with citation_type := "internal" }],
       s.current_external_law, s.current_internal_article_idx⟩ := by
  rw [List.get?_eq_getElem?] at hj
  rcases isSfon34_classes h34 with hc | hc <;>
    simp [consStep, hc, hg, hidx, hj]

theorem consStep_eq_sfon34_intFork (s : ConsState) (c e : Citation) (j : Nat)
    (h34 : isSfon34 c = true)
    (hg : (truthyS s.current_external_law &&
      decide (0 < s.out.length)) = false)
    (hidx : s.current_internal_article_idx = some j)
    (hj : s.out.get? j = some e)
    (he : e.citation_type = "internal")
    (hart : truthyN e.target_article = true)
    (hcol : collide c e = true) :
    consStep s c =
      ⟨s.out ++ [forkFromInternal e c], s.current_external_law,
       s.current_internal_article_idx⟩ := by
  rw [List.get?_eq_getElem?] at hj
  rcases isSfon34_classes h34 with hc | hc <;>
    simp [consStep, hc, hg, hidx, hj, he, hart, hcol]

theorem consStep_eq_sfon34_intMerge (s : ConsState) (c e : Citation) (j : Nat)
    (h34 : isSfon34 c = true)
    (hg : (truthyS s.current_external_law &&
      decide (0 < s.out.length)) = false)
    (hidx : s.current_internal_article_idx = some j)
    (hj : s.out.get? j = some e)
    (he : e.citation_type = "internal")
    (hart : truthyN e.target_article = true)
    (hcol : collide c e = false) :
    consStep s c =
      ⟨s.out.set j (mergeParaItem e c), s.current_external_law,
       s.current_internal_article_idx⟩ := by
  rw [List.get?_eq_getElem?] at hj
  rcases isSfon34_classes h34 with hc | hc <;>
    simp [consStep, hc, hg, hidx, hj, he, hart, hcol]

theorem consStep_eq_sfon34_intStandalone (s : ConsState) (c e : Citation)
    (j : Nat)
    (h34 : isSfon34 c = true)
    (hg : (truthyS s.current_external_law &&
      decide (0 < s.out.length)) = false)
    (hidx : s.current_internal_article_idx = some j)
    (hj : s.out.get? j = some e)
    (hcond : (e.citation_type == "internal" &&
      truthyN e.target_article) = false) :
    consStep s c =
      ⟨s.out ++ [{ c with citation_type := "internal" }],
       s.current_external_law, s.current_internal_article_idx⟩ := by
  rw [List.get?_eq_getElem?] at hj
  have hcond2 : ¬(e.citation_type = "internal" ∧
      truthyN e.target_article = true) := by
    simpa using hcond
  rcases isSfon34_classes h34 with hc | hc <;>
    simp [consStep, hc, hg, hidx, hj, hcond2]

/-- Helper: when the external context is truthy after a step, the
pending-internal index is cleared and the last output entry is a matching
external entry — one-step preservation. -/
theorem ext_inv_step (s : ConsState) (c : Citation)
    (ih : truthyS s.current_external_law = true →
      s.current_internal_article_idx = none ∧
      ∃ last, s.out.getLast? = some last ∧ last.citation_type = "external" ∧
        last.target_law_name = s.current_external_law) :
    truthyS (consStep s c).current_external_law = true →
      (consStep s c).current_internal_article_idx = none ∧
      ∃ last, (consStep s c).out.getLast? = some last ∧
        last.citation_type = "external" ∧
        last.target_law_name = (consStep s c).current_external_law := by
  by_cases h1 : c.link_class = "sfon1"
  · by_cases he : c.citation_type = "external"
    · rw [consStep_eq_sfon1_ext s c h1 he]
      intro _
      exact ⟨rfl, c, List.getLast?_concat _, he, rfl⟩
    · rw [consStep_eq_sfon1_notExt s c h1 he]
      intro ht
      simp [truthyS] at ht
  · by_cases h2 : c.link_class = "sfon2"
    · by_cases hx : truthyS s.current_external_law = true
      · obtain ⟨hidx, last0, hlast, htype, hlaw⟩ := ih hx
        by_cases ha : last0.target_article = none
        · rw [consStep_eq_sfon2_merge s c last0 h2 hlast hx htype hlaw ha]
          intro _
          exact ⟨rfl, _,
            getLast?_set_last s.out _ (ne_nil_of_getLast?_eq_some hlast),
            htype, hlaw⟩
        · rw [consStep_eq_sfon2_fall_article s c last0 h2 hlast ha]
          intro ht
          simp [truthyS] at ht
      · have hx' : truthyS s.current_external_law = false :=
          Bool.eq_false_iff.2 hx
        rw [consStep_eq_sfon2_fall_extFalse s c h2 hx']
        intro ht
        simp [truthyS] at ht
    · by_cases h34 : isSfon34 c = true
      · by_cases hx : truthyS s.current_external_law = true
        · obtain ⟨hidx, last0, hlast, htype, hlaw⟩ := ih hx
          cases hcol : collide c last0 with
          | true =>
            rw [consStep_eq_sfon34_extFork s c last0 h34 hlast hx htype
              hlaw hcol]
            intro _
            exact ⟨hidx, _, List.getLast?_concat _, rfl, hlaw⟩
          | false =>
            rw [consStep_eq_sfon34_extMerge s c last0 h34 hlast hx htype
              hlaw hcol]
            intro _
            exact ⟨hidx, _,
              getLast?_set_last s.out _ (ne_nil_of_getLast?_eq_some hlast),
              htype, hlaw⟩
        · have hx' : truthyS s.current_external_law = false :=
            Bool.eq_false_iff.2 hx
          have hg : (truthyS s.current_external_law &&
              decide (0 < s.out.length)) = false := by
            rw [hx']
            simp
          rcases hidx : s.current_internal_article_idx with _ | j
          · rw [consStep_eq_sfon34_idxNone s c h34 hg hidx]
            intro ht
            rw [hx'] at ht
            cases ht
          · rcases hj : s.out.get? j with _ | e
            · rw [consStep_eq_sfon34_idxBad s c j h34 hg hidx hj]
              intro ht
              rw [hx'] at ht
              cases ht
            · by_cases hcond : (e.citation_type == "internal" &&
                  truthyN e.target_article) = true
              · have hp : e.citation_type = "internal" ∧
                    truthyN e.target_article = true := by
                  simpa using hcond
                have he := hp.1
                have hart := hp.2
                cases hcol : collide c e with
                | true =>
                  rw [consStep_eq_sfon34_intFork s c e j h34 hg hidx hj he
                    hart hcol]
                  intro ht
                  rw [hx'] at ht
                  cases ht
                | false =>
                  rw [consStep_eq_sfon34_intMerge s c e j h34 hg hidx hj he
                    hart hcol]
                  intro ht
                  rw [hx'] at ht
                  cases ht
              · rw [consStep_eq_sfon34_intStandalone s c e j h34 hg hidx hj
                  (Bool.eq_false_iff.2 hcond)]
                intro ht
                rw [hx'] at ht
                cases ht
      · have h3 : c.link_class ≠ "sfon3" := by
          intro hq
          exact h34 (by simp [isSfon34, hq])
        have h4 : c.link_class ≠ "sfon4" := by
          intro hq
          exact h34 (by simp [isSfon34, hq])
        rw [consStep_eq_other s c h1 h2 h3 h4]
        exact ih

/-- C1 (amended).  In every run of `consolidate`, whenever
`pending_external_law` is set (truthy), `pending_internal_index` is unset
and the last output entry is an external entry whose law name matches it.
Hence the situation described by the claim — a paragraph/item fragment
arriving while the external law is pending, the last entry does not match,
and an internal article entry is pending — never arises, and the `elif`
that skips the internal target whenever the external guard holds is
unobservable. -/
theorem external_context_invariant :
    ∀ fs : List Citation,
      truthyS (consRun fs).current_external_law = true →
      (consRun fs).current_internal_article_idx = none ∧
      ∃ last, (consRun fs).out.getLast? = some last ∧
        last.citation_type = "external" ∧
        last.target_law_name = (consRun fs).current_external_law := by
  have main : ∀ (fs : List Citation) (s : ConsState),
      (truthyS s.current_external_law = true →
        s.current_internal_article_idx = none ∧
        ∃ last, s.out.getLast? = some last ∧ last.citation_type = "external" ∧
          last.target_law_name = s.current_external_law) →
      truthyS (fs.foldl consStep s).current_external_law = true →
        (fs.foldl consStep s).current_internal_article_idx = none ∧
        ∃ last, (fs.foldl consStep s).out.getLast? = some last ∧
          last.citation_type = "external" ∧
          last.target_law_name = (fs.foldl consStep s).current_external_law := by
    intro fs
    induction fs with
    | nil => intro s ih; exact ih
    | cons c t iht =>
      intro s ih
      exact iht (consStep s c) (ext_inv_step s c ih)
  intro fs
  exact main fs consInit (by intro ht; simp [truthyS, consInit] at ht)

/-- Witness for `external_context_invariant` at the one-fragment run
`[fragLaw]`, whose final external context `형법` is truthy. -/
theorem external_context_invariant_witness :
    (consRun [fragLaw]).current_internal_article_idx = none ∧
    ∃ last, (consRun [fragLaw]).out.getLast? = some last ∧
      last.citation_type = "external" ∧
      last.target_law_name = (consRun [fragLaw]).current_external_law :=
  external_context_invariant [fragLaw] (by decide)

/-- C1 counterexample (to the claim read at the state level): in the
hypothetical state with `pending_external_law = some "형법"`, a pending
internal article entry at index 0 and a last output entry that is *not* a
matching external entry, the paragraph fragment `제1항` is appended
standalone — the internal-article target is not tried, the pending entry
keeps `target_paragraph = none`, and nothing is forked from it. -/
theorem paragraph_standalone_in_hypothetical_state :
    consStep hypotheticalState fragPara1 =
      ⟨consolidate [fragArt20] ++ [fragPara1], some "형법", some 0⟩ ∧
    consolidate [fragArt20] = [fragArt20] ∧
    fragArt20.target_paragraph = none ∧
    fragPara1.target_law_name = none ∧
    fragPara1.target_article = none := by
  refine ⟨by decide, by decide, by decide, by decide, by decide⟩

/-! ## Claim C4: field completeness and the merge/fork decision

The *fragment's* own unparsed numbers never exclude it from merging: with
both numbers unset there is no same-field collision, so the fragment merges
in place into either pending target.  But the *target-side* check at
line 427-428 (`last_article.target_article` truthiness) makes an internal
pending article entry without an article number unusable: the fragment is
then appended standalone, contrary to the claim. -/

/-- C4 (amended).  (1) A paragraph/item fragment with no parsed numbers
still merges in place into a matching pending external target; (2) it
also merges in place into a pending internal article target whose article
number is truthy; (3) but when the pending internal entry's article number
is unset (falsy), the fragment is appended standalone instead of being
merged — field completeness of the *target* does matter. -/
theorem merge_uses_target_article :
    (∀ (s : ConsState) (c last : Citation),
      isSfon34 c = true →
      c.target_paragraph = none → c.target_item = none →
      truthyS s.current_external_law = true →
      s.out.getLast? = some last →
      last.citation_type = "external" →
      last.target_law_name = s.current_external_law →
      consStep s c = ⟨s.out.set (s.out.length - 1) (mergeParaItem last c),
        s.current_external_law, s.current_internal_article_idx⟩) ∧
    (∀ (s : ConsState) (c e : Citation) (j : Nat),
      isSfon34 c = true →
      c.target_paragraph = none → c.target_item = none →
      truthyS s.current_external_law = false →
      s.current_internal_article_idx = some j →
      s.out.get? j = some e →
      e.citation_type = "internal" →
      truthyN e.target_article = true →
      consStep s c = ⟨s.out.set j (mergeParaItem e c),
        s.current_external_law, s.current_internal_article_idx⟩) ∧
    (∀ (s : ConsState) (c e : Citation) (j : Nat),
      isSfon34 c = true →
      truthyS s.current_external_law = false →
      s.current_internal_article_idx = some j →
      s.out.get? j = some e →
      truthyN e.target_article = false →
      consStep s c = ⟨s.out ++ [{ c with citation_type := "internal" }],
        s.current_external_law, s.current_internal_article_idx⟩) := by
  refine ⟨?_, ?_, ?_⟩
  · intro s c last h34 hp hi hx hlast ht hl
    have hcol : collide c last = false := by
      simp [collide, hp, hi, truthyN]
    exact consStep_eq_sfon34_extMerge s c last h34 hlast hx ht hl hcol
  · intro s c e j h34 hp hi hx hidx hj he hart
    have hg : (truthyS s.current_external_law &&
        decide (0 < s.out.length)) = false := by
      rw [hx]
      simp
    have hcol : collide c e = false := by
      simp [collide, hp, hi, truthyN]
    exact consStep_eq_sfon34_intMerge s c e j h34 hg hidx hj he hart hcol
  · intro s c e j h34 hx hidx hj hart
    have hg : (truthyS s.current_external_law &&
        decide (0 < s.out.length)) = false := by
      rw [hx]
      simp
    have hcond : (e.citation_type == "internal" &&
        truthyN e.target_article) = false := by
      rw [hart]
      simp
    exact consStep_eq_sfon34_intStandalone s c e j h34 hg hidx hj hcond

/-- Witness for `merge_uses_target_article`: the three cases at concrete
states — a numberless paragraph fragment after `「형법」`, the same after
`제20조`, and `제1항` after the numberless article `제조`. -/
theorem merge_uses_target_article_witness :
    (consStep (consRun [fragLaw]) fragParaNoNum =
      ⟨(consRun [fragLaw]).out.set ((consRun [fragLaw]).out.length - 1)
        (mergeParaItem fragLaw fragParaNoNum),
       (consRun [fragLaw]).current_external_law,
       (consRun [fragLaw]).current_internal_article_idx⟩) ∧
    (consStep (consRun [fragArt20]) fragParaNoNum =
      ⟨(consRun [fragArt20]).out.set 0 (mergeParaItem fragArt20 fragParaNoNum),
       (consRun [fragArt20]).current_external_law,
       (consRun [fragArt20]).current_internal_article_idx⟩) ∧
    (consStep (consRun [fragArtNoNum]) fragPara1 =
      ⟨(consRun [fragArtNoNum]).out ++
        [{ fragPara1 with citation_type := "internal" }],
       (consRun [fragArtNoNum]).current_external_law,
       (consRun [fragArtNoNum]).current_internal_article_idx⟩) :=
  ⟨merge_uses_target_article.1 (consRun [fragLaw]) fragParaNoNum fragLaw
      (by decide) (by decide) (by decide) (by decide) (by decide) (by decide)
      (by decide),
   merge_uses_target_article.2.1 (consRun [fragArt20]) fragParaNoNum fragArt20
      0 (by decide) (by decide) (by decide) (by decide) (by decide) (by decide)
      (by decide) (by decide),
   merge_uses_target_article.2.2 (consRun [fragArtNoNum]) fragPara1
      fragArtNoNum 0 (by decide) (by decide) (by decide) (by decide)
      (by decide)⟩

/-- C4 counterexample: the paragraph fragment `제1항` arriving while the
pending internal article entry parsed from `제조` has no article number is
appended standalone — the output keeps both fragments separate and the
pending entry gains no paragraph, where the claim demands a merge. -/
theorem paragraph_standalone_after_numberless_article :
    consolidate [fragArtNoNum, fragPara1] = [fragArtNoNum, fragPara1] ∧
    (consRun [fragArtNoNum, fragPara1]).current_internal_article_idx =
      some 0 ∧
    fragArtNoNum.target_article = none ∧
    fragPara1.target_paragraph = some 1 := by
  refine ⟨by decide, by decide, by decide, by decide⟩

/-! ## Claim C9: failure envelopes of the orchestrator -/

/-- C9.  When the lookup collaborator yields no (truthy) site sequence id,
or the fetch collaborator yields no (truthy) HTML, `extract_citations`
returns — never raises — an envelope with `success = false`, zero
citations, at least one error message, and the law id, law name and
article display string still populated. -/
theorem extract_failure_envelope :
    ∀ (lsi html : Option String) (parsed : List Citation)
      (mst lname : String) (article article_branch : Nat),
      truthyS lsi = false ∨ truthyS html = false →
      (extract_citations lsi html parsed mst lname article
        article_branch).success = false ∧
      (extract_citations lsi html parsed mst lname article
        article_branch).citation_count = 0 ∧
      (extract_citations lsi html parsed mst lname article
        article_branch).citations = [] ∧
      (extract_citations lsi html parsed mst lname article
        article_branch).errors ≠ [] ∧
      (extract_citations lsi html parsed mst lname article
        article_branch).law_id = mst ∧
      (extract_citations lsi html parsed mst lname article
        article_branch).law_name = lname ∧
      (extract_citations lsi html parsed mst lname article
        article_branch).article = articleDisplay article article_branch := by
  intro lsi html parsed mst lname article article_branch h
  cases hl : truthyS lsi with
  | false => simp [extract_citations, hl]
  | true =>
    have hh : truthyS html = false := by
      rcases h with h | h
      · rw [hl] at h
        cases h
      · exact h
    simp [extract_citations, hl, hh]

/-- Witness for `extract_failure_envelope`: the lookup collaborator fails
(`None`), with concrete law id, name and article. -/
theorem extract_failure_envelope_witness :
    (extract_citations none none [] "268611" "형법" 3 0).success = false ∧
    (extract_citations none none [] "268611" "형법" 3 0).citation_count = 0 ∧
    (extract_citations none none [] "268611" "형법" 3 0).citations = [] ∧
    (extract_citations none none [] "268611" "형법" 3 0).errors ≠ [] ∧
    (extract_citations none none [] "268611" "형법" 3 0).law_id = "268611" ∧
    (extract_citations none none [] "268611" "형법" 3 0).law_name = "형법" ∧
    (extract_citations none none [] "268611" "형법" 3 0).article =
      articleDisplay 3 0 :=
  extract_failure_envelope none none [] "268611" "형법" 3 0
    (Or.inl (by decide))

/-! ## Claim C10: dropped markers, scopes, and count additivity -/

theorem consStep_eq_sfon2_fall_empty (s : ConsState) (c : Citation)
    (h : c.link_class = "sfon2") (hout : s.out = []) :
    consStep s c =
      ⟨s.out ++ [{ c with citation_type := "internal" }], none,
       some s.out.length⟩ := by
  simp [consStep, h, hout]

/-- The classifier never leaves the scope unknown on a law-name-classed
fragment: `_parse_single_link` always sets it to external or internal in
the `sfon1` branch. -/
theorem parseSingleLink_link_class (text : String) (classes : List String)
    (rid rtype src : String) :
    (parseSingleLink text classes rid rtype src).link_class =
      sfonClassOf classes := by
  simp only [parseSingleLink]
  repeat' split
  all_goals rfl

theorem scope_step (s : ConsState) (c : Citation)
    (hc : c.link_class = "sfon1" →
      c.citation_type = "internal" ∨ c.citation_type = "external")
    (ih : ∀ x ∈ s.out,
      x.citation_type = "internal" ∨ x.citation_type = "external") :
    ∀ x ∈ (consStep s c).out,
      x.citation_type = "internal" ∨ x.citation_type = "external" := by
  by_cases h1 : c.link_class = "sfon1"
  · by_cases he : c.citation_type = "external"
    · rw [consStep_eq_sfon1_ext s c h1 he]
      intro x hx
      rcases List.mem_append.1 hx with hx | hx
      · exact ih x hx
      · rw [List.mem_singleton.1 hx]
        exact Or.inr he
    · rw [consStep_eq_sfon1_notExt s c h1 he]
      intro x hx
      rcases List.mem_append.1 hx with hx | hx
      · exact ih x hx
      · rw [List.mem_singleton.1 hx]
        exact hc h1
  · by_cases h2 : c.link_class = "sfon2"
    · rcases hout : s.out with _ | ⟨y, t⟩
      · rw [consStep_eq_sfon2_fall_empty s c h2 hout]
        intro x hxm
        rcases List.mem_append.1 hxm with hxm | hxm
        · exact ih x hxm
        · rw [List.mem_singleton.1 hxm]
          exact Or.inl rfl
      · by_cases hx : truthyS s.current_external_law = true
        · rcases hl : s.out.getLast? with _ | last
          · have hnil := List.getLast?_eq_none_iff.1 hl
            rw [hout] at hnil
            cases hnil
          · by_cases hcond : (last.citation_type == "external" &&
                last.target_law_name == s.current_external_law) = true
            · have hp : last.citation_type = "external" ∧
                  last.target_law_name = s.current_external_law := by
                simpa using hcond
              by_cases ha : last.target_article = none
              · rw [consStep_eq_sfon2_merge s c last h2 hl hx hp.1 hp.2 ha]
                intro x hxm
                rcases List.mem_or_eq_of_mem_set hxm with hxm | hxm
                · exact ih x hxm
                · rw [hxm]
                  exact Or.inr hp.1
              · rw [consStep_eq_sfon2_fall_article s c last h2 hl ha]
                intro x hxm
                rcases List.mem_append.1 hxm with hxm | hxm
                · exact ih x hxm
                · rw [List.mem_singleton.1 hxm]
                  exact Or.inl rfl
            · rw [consStep_eq_sfon2_fall_mismatch s c last h2 hl
                (Bool.eq_false_iff.2 hcond)]
              intro x hxm
              rcases List.mem_append.1 hxm with hxm | hxm
              · exact ih x hxm
              · rw [List.mem_singleton.1 hxm]
                exact Or.inl rfl
        · rw [consStep_eq_sfon2_fall_extFalse s c h2 (Bool.eq_false_iff.2 hx)]
          intro x hxm
          rcases List.mem_append.1 hxm with hxm | hxm
          · exact ih x hxm
          · rw [List.mem_singleton.1 hxm]
            exact Or.inl rfl
    · by_cases h34 : isSfon34 c = true
      · have standaloneCase : ∀ x ∈ s.out ++
            [{ c with citation_type := "internal" }],
            x.citation_type = "internal" ∨ x.citation_type = "external" := by
          intro x hxm
          rcases List.mem_append.1 hxm with hxm | hxm
          · exact ih x hxm
          · rw [List.mem_singleton.1 hxm]
            exact Or.inl rfl
        by_cases hx : truthyS s.current_external_law = true
        · rcases hl : s.out.getLast? with _ | last
          · -- empty output: the guard fails, internal branch
            have hout : s.out = [] := List.getLast?_eq_none_iff.1 hl
            have hg : (truthyS s.current_external_law &&
                decide (0 < s.out.length)) = false := by
              rw [hout]
              simp
            rcases hidx : s.current_internal_article_idx with _ | j
            · rw [consStep_eq_sfon34_idxNone s c h34 hg hidx]
              exact standaloneCase
            · have hj : s.out.get? j = none := by
                rw [hout]
                rfl
              rw [consStep_eq_sfon34_idxBad s c j h34 hg hidx hj]
              exact standaloneCase
          · by_cases hcond : (last.citation_type == "external" &&
                last.target_law_name == s.current_external_law) = true
            · have hp : last.citation_type = "external" ∧
                  last.target_law_name = s.current_external_law := by
                simpa using hcond
              cases hcol : collide c last with
              | true =>
                rw [consStep_eq_sfon34_extFork s c last h34 hl hx hp.1 hp.2
                  hcol]
                intro x hxm
                rcases List.mem_append.1 hxm with hxm | hxm
                · exact ih x hxm
                · rw [List.mem_singleton.1 hxm]
                  exact Or.inr rfl
              | false =>
                rw [consStep_eq_sfon34_extMerge s c last h34 hl hx hp.1 hp.2
                  hcol]
                intro x hxm
                rcases List.mem_or_eq_of_mem_set hxm with hxm | hxm
                · exact ih x hxm
                · rw [hxm]
                  exact Or.inr hp.1
            · rw [consStep_eq_sfon34_extMismatch s c last h34 hl hx
                (Bool.eq_false_iff.2 hcond)]
              exact standaloneCase
        · have hg : (truthyS s.current_external_law &&
              decide (0 < s.out.length)) = false := by
            rw [Bool.eq_false_iff.2 hx]
            simp
          rcases hidx : s.current_internal_article_idx with _ | j
          · rw [consStep_eq_sfon34_idxNone s c h34 hg hidx]
            exact standaloneCase
          · rcases hj : s.out.get? j with _ | e
            · rw [consStep_eq_sfon34_idxBad s c j h34 hg hidx hj]
              exact standaloneCase
            · by_cases hcond : (e.citation_type == "internal" &&
                  truthyN e.target_article) = true
              · have hp : e.citation_type = "internal" ∧
                    truthyN e.target_article = true := by
                  simpa using hcond
                cases hcol : collide c e with
                | true =>
                  rw [consStep_eq_sfon34_intFork s c e j h34 hg hidx hj hp.1
                    hp.2 hcol]
                  intro x hxm
                  rcases List.mem_append.1 hxm with hxm | hxm
                  · exact ih x hxm
                  · rw [List.mem_singleton.1 hxm]
                    exact Or.inl rfl
                | false =>
                  rw [consStep_eq_sfon34_intMerge s c e j h34 hg hidx hj hp.1
                    hp.2 hcol]
                  intro x hxm
                  rcases List.mem_or_eq_of_mem_set hxm with hxm | hxm
                  · exact ih x hxm
                  · rw [hxm]
                    exact Or.inl hp.1
              · rw [consStep_eq_sfon34_intStandalone s c e j h34 hg hidx hj
                  (Bool.eq_false_iff.2 hcond)]
                exact standaloneCase
      · have h3 : c.link_class ≠ "sfon3" := fun hq =>
          h34 (by simp [isSfon34, hq])
        have h4 : c.link_class ≠ "sfon4" := fun hq =>
          h34 (by simp [isSfon34, hq])
        rw [consStep_eq_other s c h1 h2 h3 h4]
        exact ih

/-- Every consolidated entry of a classifier-shaped fragment list has
internal or external scope. -/
theorem consolidate_scope (fs : List Citation)
    (hshape : ∀ c ∈ fs, c.link_class = "sfon1" →
      c.citation_type = "internal" ∨ c.citation_type = "external") :
    ∀ x ∈ consolidate fs,
      x.citation_type = "internal" ∨ x.citation_type = "external" := by
  have main : ∀ (l : List Citation) (s : ConsState),
      (∀ c ∈ l, c.link_class = "sfon1" →
        c.citation_type = "internal" ∨ c.citation_type = "external") →
      (∀ x ∈ s.out,
        x.citation_type = "internal" ∨ x.citation_type = "external") →
      ∀ x ∈ (l.foldl consStep s).out,
        x.citation_type = "internal" ∨ x.citation_type = "external" := by
    intro l
    induction l with
    | nil => intro s _ ih; exact ih
    | cons c t iht =>
      intro s hl ih
      exact iht (consStep s c) (fun x hx => hl x (by simp [hx]))
        (scope_step s c (hl c (by simp)) ih)
  exact main fs consInit hshape (by intro x hx; cases hx)

theorem filter_int_ext_length (l : List Citation)
    (h : ∀ c ∈ l,
      c.citation_type = "internal" ∨ c.citation_type = "external") :
    (l.filter (fun c => c.citation_type == "internal")).length +
      (l.filter (fun c => c.citation_type == "external")).length =
      l.length := by
  induction l with
  | nil => simp
  | cons c t ih =>
    have ht : ∀ x ∈ t,
        x.citation_type = "internal" ∨ x.citation_type = "external" :=
      fun x hx => h x (by simp [hx])
    have := ih ht
    rcases h c (by simp) with hi | he
    · simp only [List.filter_cons, hi]
      simp only [beq_iff_eq]
      simp
      omega
    · simp only [List.filter_cons, he]
      simp only [beq_iff_eq]
      simp
      omega

/-- C10.  (1) A fragment whose marker class is none of `sfon1`..`sfon4` is
silently dropped by consolidation; (2) the anchor classifier leaves no
`sfon1`-classed fragment with unknown scope; (3) hence every consolidated
citation of a classifier-shaped list has scope internal or external; and
(4) in every successful extraction envelope
`internal_count + external_count = citation_count`. -/
theorem consolidate_drops_and_counts :
    (∀ (xs ys : List Citation) (c : Citation),
      c.link_class ≠ "sfon1" → c.link_class ≠ "sfon2" →
      c.link_class ≠ "sfon3" → c.link_class ≠ "sfon4" →
      consolidate (xs ++ c :: ys) = consolidate (xs ++ ys)) ∧
    (∀ (text : String) (classes : List String) (rid rtype src : String),
      (parseSingleLink text classes rid rtype src).link_class = "sfon1" →
      (parseSingleLink text classes rid rtype src).citation_type =
        "internal" ∨
      (parseSingleLink text classes rid rtype src).citation_type =
        "external") ∧
    (∀ fs : List Citation,
      (∀ c ∈ fs, c.link_class = "sfon1" →
        c.citation_type = "internal" ∨ c.citation_type = "external") →
      ∀ x ∈ consolidate fs,
        x.citation_type = "internal" ∨ x.citation_type = "external") ∧
    (∀ (lsi html : Option String) (parsed : List Citation)
      (mst lname : String) (a b : Nat),
      truthyS lsi = true → truthyS html = true →
      (∀ c ∈ parsed, c.link_class = "sfon1" →
        c.citation_type = "internal" ∨ c.citation_type = "external") →
      (extract_citations lsi html parsed mst lname a b).success = true ∧
      (extract_citations lsi html parsed mst lname a b).internal_count +
        (extract_citations lsi html parsed mst lname a b).external_count =
        (extract_citations lsi html parsed mst lname a b).citation_count) := by
  refine ⟨?_, ?_, consolidate_scope, ?_⟩
  · intro xs ys c h1 h2 h3 h4
    simp only [consolidate, consRun, List.foldl_append, List.foldl_cons]
    rw [consStep_eq_other _ c h1 h2 h3 h4]
  · intro text classes rid rtype src hcl
    rw [parseSingleLink_link_class] at hcl
    unfold parseSingleLink
    rw [hcl]
    simp only [beq_self_eq_true, if_true]
    rcases hm : findLawName text.data with _ | nm
    · simp only [hm]
      by_cases hinf : (hasInfix "같은 법".data text.data ||
          hasInfix "이 법".data text.data) = true
      · rw [hinf]
        simp
      · rw [Bool.eq_false_iff.2 hinf]
        simp
    · simp only [hm]
      simp
  · intro lsi html parsed mst lname a b hl hh hshape
    have hscope := consolidate_scope parsed hshape
    simp only [extract_citations, hl, hh, Bool.not_true, Bool.false_eq_true,
      if_false]
    exact ⟨trivial, filter_int_ext_length _ hscope⟩

/-- Witness for `consolidate_drops_and_counts`: concrete instances of all
four parts. -/
theorem consolidate_drops_and_counts_witness :
    consolidate ([] ++ fragGarbage :: []) = consolidate ([] ++ []) ∧
    ((parseSingleLink "「형법」" ["link", "sfon1"] "001706" "ALLJO"
        "소득세법").citation_type = "internal" ∨
      (parseSingleLink "「형법」" ["link", "sfon1"] "001706" "ALLJO"
        "소득세법").citation_type = "external") ∧
    (fragArt20.citation_type = "internal" ∨
      fragArt20.citation_type = "external") ∧
    ((extract_citations (some "266168") (some "<html>") [fragArt20] "268611"
        "형법" 3 0).success = true ∧
      (extract_citations (some "266168") (some "<html>") [fragArt20] "268611"
        "형법" 3 0).internal_count +
        (extract_citations (some "266168") (some "<html>") [fragArt20]
          "268611" "형법" 3 0).external_count =
        (extract_citations (some "266168") (some "<html>") [fragArt20]
          "268611" "형법" 3 0).citation_count) :=
  ⟨consolidate_drops_and_counts.1 [] [] fragGarbage (by decide) (by decide)
      (by decide) (by decide),
   consolidate_drops_and_counts.2.1 "「형법」" ["link", "sfon1"] "001706"
      "ALLJO" "소득세법" (by decide),
   consolidate_drops_and_counts.2.2.1 [fragArt20] (by decide) fragArt20
      (by decide),
   consolidate_drops_and_counts.2.2.2 (some "266168") (some "<html>")
      [fragArt20] "268611" "형법" 3 0 (by decide) (by decide) (by decide)⟩

/-! ## Claim C7: the ranking score tuple and the concrete ordering -/

theorem hasInfix_eq_isSome (needle hay : List Char) :
    hasInfix needle hay = (findOccIdx needle hay).isSome := by
  induction hay with
  | nil =>
    cases h : needle.isEmpty <;> simp [hasInfix, findOccIdx, h]
  | cons c rest ih =>
    cases hp : needle.isPrefixOf (c :: rest) <;>
      simp [hasInfix, findOccIdx, hp, ih]

/-- The source's word-boundary component (first occurrence via `find`)
equals the amended spec component `firstOccBoundary`. -/
theorem word_match_eq_firstOcc (nd hd : List Char) :
    (if hasInfix nd hd = true then
      match findOccIdx nd hd with
      | some idx =>
        if (idx == 0 || hd.get? (idx - 1) == some ' ') = true then 0 else 1
      | none => 1
    else 1) = (if firstOccBoundary nd hd = true then (0 : Nat) else 1) := by
  by_cases hinf : hasInfix nd hd = true
  · rw [if_pos hinf]
    have hsome : (findOccIdx nd hd).isSome = true := by
      rw [← hasInfix_eq_isSome]
      exact hinf
    rcases hocc : findOccIdx nd hd with _ | i
    · rw [hocc] at hsome
      cases hsome
    · simp only [hocc]
      unfold firstOccBoundary
      rw [hocc]
      cases i with
      | zero => simp
      | succ k =>
        simp only [Nat.succ_sub_one]
        simp
  · rw [if_neg hinf]
    rcases hocc : findOccIdx nd hd with _ | i
    · unfold firstOccBoundary
      rw [hocc]
      rfl
    · exfalso
      apply hinf
      rw [hasInfix_eq_isSome, hocc]
      rfl

/-- C7 (amended).  The ranking score is exactly the spec's ascending
5-tuple — exact case-insensitive match, starts-with, *first occurrence* of
the query at a word boundary, containment, name length, with sentinel
values for empty fields — and on the records `난민법`, `민법`,
`민법 시행령` with query `민법` the rank order is
`[민법, 민법 시행령, 난민법]`. -/
theorem calculate_score_spec_and_example :
    (∀ (f q : String) (r : RankRecord),
      calculate_score f q r = specScoreAmended f q r) ∧
    rank_search_results [recNanmin, recMinbeop, recMinbeopSi] "민법"
      "법령명한글" = [recMinbeop, recMinbeopSi, recNanmin] := by
  refine ⟨?_, by decide⟩
  intro f q r
  simp only [calculate_score, specScoreAmended]
  by_cases hname : pyStrip (getField r f) = ""
  · simp [hname]
  · have hb : (pyStrip (getField r f) == "") = false := by simp [hname]
    rw [hb]
    simp only [Bool.false_eq_true, if_false]
    rw [word_match_eq_firstOcc]

/-- C7 counterexample: on the record `난민법 민법` with query `민법` the
claim's word-boundary component (0 when *some* occurrence of the query is
at a boundary) is 0, but the code computes 1 because only the *first*
occurrence — which sits mid-word — is inspected via `find`. -/
theorem specScoreClaimed_differs_from_code :
    specScoreClaimed "법령명한글" "민법" recBoundary ≠
      calculate_score "법령명한글" "민법" recBoundary ∧
    specScoreClaimed "법령명한글" "민법" recBoundary = (1, 1, 0, 0, 6) ∧
    calculate_score "법령명한글" "민법" recBoundary = (1, 1, 1, 0, 6) := by
  refine ⟨by decide, by decide, by decide⟩

/-! ## Claim C8: ranking stability -/

theorem tupLE_refl (a : Nat × Nat × Nat × Nat × Nat) : tupLE a a = true := by
  simp [tupLE]

/-- Filtering one score class out of a stable insertion: a new element of
the class goes to the front of the class, other classes are untouched. -/
theorem filter_insertStable_score (f q : String)
    (t : Nat × Nat × Nat × Nat × Nat) (x : RankRecord)
    (m : List RankRecord) :
    (insertStable
        (fun a b => tupLE (calculate_score f q a) (calculate_score f q b))
        x m).filter (fun r => decide (calculate_score f q r = t)) =
      if calculate_score f q x = t then
        x :: m.filter (fun r => decide (calculate_score f q r = t))
      else m.filter (fun r => decide (calculate_score f q r = t)) := by
  induction m with
  | nil =>
    by_cases hx : calculate_score f q x = t <;>
      simp [insertStable, List.filter, hx]
  | cons y ys ih =>
    simp only [insertStable]
    by_cases hle : tupLE (calculate_score f q x) (calculate_score f q y) =
        true
    · rw [if_pos hle]
      by_cases hx : calculate_score f q x = t <;>
        simp [List.filter_cons, hx]
    · rw [if_neg hle]
      by_cases hx : calculate_score f q x = t
      · have hy : ¬ calculate_score f q y = t := by
          intro he
          exact hle (by rw [hx, he]; exact tupLE_refl t)
        simp [List.filter_cons, hy, ih, hx]
      · simp [List.filter_cons, ih, hx]

theorem filter_stableSortBy_score (f q : String)
    (t : Nat × Nat × Nat × Nat × Nat) (l : List RankRecord) :
    (stableSortBy
        (fun a b => tupLE (calculate_score f q a) (calculate_score f q b))
        l).filter (fun r => decide (calculate_score f q r = t)) =
      l.filter (fun r => decide (calculate_score f q r = t)) := by
  induction l with
  | nil => rfl
  | cons x xs ih =>
    simp only [stableSortBy]
    rw [filter_insertStable_score]
    by_cases hx : calculate_score f q x = t <;>
      simp [List.filter_cons, hx, ih]

/-- C8.  Ranking is stable: for every score tuple `t`, the subsequence of
records scoring `t` is exactly the same — element for element, in the same
order — before and after ranking; hence any two records with identical
score tuples keep their relative input order. -/
theorem rank_search_results_stable :
    ∀ (results : List RankRecord) (query name_field : String)
      (t : Nat × Nat × Nat × Nat × Nat),
      (rank_search_results results query name_field).filter
          (fun r => decide (calculate_score name_field query r = t)) =
        results.filter
          (fun r => decide (calculate_score name_field query r = t)) := by
  intro results query name_field t
  unfold rank_search_results
  by_cases h : (results.isEmpty || query == "") = true
  · rw [if_pos h]
  · rw [if_neg h]
    exact filter_stableSortBy_score name_field query t results

/-! ## Claim C6: mutation of the input fragments

`consolidate_citations` appends the incoming Python objects to the output
and mutates them (and earlier output entries) in place; the heap model
makes this visible.  The counterexample shows an input fragment being
rewritten; the amended frame property shows the mutations never escape the
returned output: every input object not in the output is bit-for-bit
unchanged. -/

/-- Every step of the heap model either (a) rewrites the incoming object
and appends its address, (b) appends its address untouched, (c) rewrites an
object already in the output, (d) allocates a fork, or (e) does nothing. -/
theorem consStepH_cases (s : HeapState) (a : Nat) :
    (∃ v, (consStepH s a).heap = s.heap.set a v ∧
      (consStepH s a).out = s.out ++ [a]) ∨
    ((consStepH s a).heap = s.heap ∧ (consStepH s a).out = s.out ++ [a]) ∨
    (∃ p v, p ∈ s.out ∧ (consStepH s a).heap = s.heap.set p v ∧
      (consStepH s a).out = s.out) ∨
    (∃ v, (consStepH s a).heap = s.heap ++ [v] ∧
      (consStepH s a).out = s.out ++ [s.heap.length]) ∨
    consStepH s a = s := by
  by_cases h1 : (heapGet s.heap a).link_class = "sfon1"
  · refine Or.inr (Or.inl ?_)
    simp [consStepH, h1]
  · by_cases h2 : (heapGet s.heap a).link_class = "sfon2"
    · by_cases hg : (truthyS s.current_external_law &&
          decide (0 < s.out.length)) = true
      · rcases hl : s.out.getLast? with _ | lastAddr
        · refine Or.inl ⟨{ heapGet s.heap a with
              citation_type := "internal" }, ?_, ?_⟩ <;>
            simp [consStepH, h1, h2, hg, hl]
        · by_cases hcond : ((heapGet s.heap lastAddr).citation_type ==
              "external" && (heapGet s.heap lastAddr).target_law_name ==
              s.current_external_law) = true
          · by_cases ha : (heapGet s.heap lastAddr).target_article = none
            · refine Or.inr (Or.inr (Or.inl ⟨lastAddr,
                { heapGet s.heap lastAddr with
                  target_article := (heapGet s.heap a).target_article
                  target_article_branch :=
                    (heapGet s.heap a).target_article_branch
                  target_text := (heapGet s.heap lastAddr).target_text ++
                    " " ++ (heapGet s.heap a).target_text },
                mem_of_getLast?_eq_some hl, ?_, ?_⟩)) <;>
                simp [consStepH, h1, h2, hg, hl, hcond, ha]
            · refine Or.inl ⟨{ heapGet s.heap a with
                  citation_type := "internal" }, ?_, ?_⟩ <;>
                simp [consStepH, h1, h2, hg, hl, hcond, ha]
          · refine Or.inl ⟨{ heapGet s.heap a with
                citation_type := "internal" }, ?_, ?_⟩ <;>
              simp [consStepH, h1, h2, hg, hl, Bool.eq_false_iff.2 hcond]
      · refine Or.inl ⟨{ heapGet s.heap a with
            citation_type := "internal" }, ?_, ?_⟩ <;>
          simp [consStepH, h1, h2, Bool.eq_false_iff.2 hg]
    · by_cases h34 : ((heapGet s.heap a).link_class = "sfon3" ∨
          (heapGet s.heap a).link_class = "sfon4")
      · have h34b : ((heapGet s.heap a).link_class == "sfon3" ||
            (heapGet s.heap a).link_class == "sfon4") = true := by
          rcases h34 with h | h <;> simp [h]
        by_cases hg : (truthyS s.current_external_law &&
            decide (0 < s.out.length)) = true
        · rcases hl : s.out.getLast? with _ | lastAddr
          · refine Or.inl ⟨{ heapGet s.heap a with
                citation_type := "internal" }, ?_, ?_⟩ <;>
              simp [consStepH, h1, h2, h34b, hg, hl]
          · by_cases hcond : ((heapGet s.heap lastAddr).citation_type ==
                "external" && (heapGet s.heap lastAddr).target_law_name ==
                s.current_external_law) = true
            · by_cases hcol : collide (heapGet s.heap a)
                  (heapGet s.heap lastAddr) = true
              · refine Or.inr (Or.inr (Or.inr (Or.inl
                  ⟨forkFromExternal (heapGet s.heap lastAddr)
                    (heapGet s.heap a), ?_, ?_⟩))) <;>
                  simp [consStepH, h1, h2, h34b, hg, hl, hcond, hcol]
              · refine Or.inr (Or.inr (Or.inl ⟨lastAddr,
                  mergeParaItem (heapGet s.heap lastAddr) (heapGet s.heap a),
                  mem_of_getLast?_eq_some hl, ?_, ?_⟩)) <;>
                  simp [consStepH, h1, h2, h34b, hg, hl, hcond,
                    Bool.eq_false_iff.2 hcol]
            · refine Or.inl ⟨{ heapGet s.heap a with
                  citation_type := "internal" }, ?_, ?_⟩ <;>
                simp [consStepH, h1, h2, h34b, hg, hl,
                  Bool.eq_false_iff.2 hcond]
        · rcases hidx : s.current_internal_article_idx with _ | j
          · refine Or.inl ⟨{ heapGet s.heap a with
                citation_type := "internal" }, ?_, ?_⟩ <;>
              simp [consStepH, h1, h2, h34b, Bool.eq_false_iff.2 hg, hidx]
          · rcases hj : s.out.get? j with _ | tgtAddr
            · have hj2 : s.out[j]? = none := by
                rw [← List.get?_eq_getElem?]
                exact hj
              refine Or.inl ⟨{ heapGet s.heap a with
                  citation_type := "internal" }, ?_, ?_⟩ <;>
                simp [consStepH, h1, h2, h34b, Bool.eq_false_iff.2 hg,
                  hidx, hj2]
            · have hj2 : s.out[j]? = some tgtAddr := by
                rw [← List.get?_eq_getElem?]
                exact hj
              by_cases hcond : ((heapGet s.heap tgtAddr).citation_type ==
                  "internal" && truthyN
                    (heapGet s.heap tgtAddr).target_article) = true
              · by_cases hcol : collide (heapGet s.heap a)
                    (heapGet s.heap tgtAddr) = true
                · refine Or.inr (Or.inr (Or.inr (Or.inl
                    ⟨forkFromInternal (heapGet s.heap tgtAddr)
                      (heapGet s.heap a), ?_, ?_⟩))) <;>
                    simp [consStepH, h1, h2, h34b, Bool.eq_false_iff.2 hg,
                      hidx, hj2, hcond, hcol]
                · refine Or.inr (Or.inr (Or.inl ⟨tgtAddr,
                    mergeParaItem (heapGet s.heap tgtAddr)
                      (heapGet s.heap a),
                    List.get?_mem hj, ?_, ?_⟩)) <;>
                    simp [consStepH, h1, h2, h34b, Bool.eq_false_iff.2 hg,
                      hidx, hj2, hcond, Bool.eq_false_iff.2 hcol]
              · refine Or.inl ⟨{ heapGet s.heap a with
                    citation_type := "internal" }, ?_, ?_⟩ <;>
                  simp [consStepH, h1, h2, h34b, Bool.eq_false_iff.2 hg,
                    hidx, hj2, Bool.eq_false_iff.2 hcond]
      · refine Or.inr (Or.inr (Or.inr (Or.inr ?_)))
        have h3 : (heapGet s.heap a).link_class ≠ "sfon3" := fun h =>
          h34 (Or.inl h)
        have h4 : (heapGet s.heap a).link_class ≠ "sfon4" := fun h =>
          h34 (Or.inr h)
        simp [consStepH, h1, h2, h3, h4]

/-- One heap step preserves "`mutated input objects are in the output`". -/
theorem consStepH_frame (fs : List Citation) (s : HeapState) (a : Nat)
    (ih : fs.length ≤ s.heap.length ∧
      ∀ i, i < fs.length → s.heap.get? i ≠ fs.get? i → i ∈ s.out) :
    fs.length ≤ (consStepH s a).heap.length ∧
      ∀ i, i < fs.length →
        (consStepH s a).heap.get? i ≠ fs.get? i → i ∈ (consStepH s a).out := by
  obtain ⟨hlen, hmut⟩ := ih
  rcases consStepH_cases s a with ⟨v, hh, ho⟩ | ⟨hh, ho⟩ |
    ⟨p, v, hp, hh, ho⟩ | ⟨v, hh, ho⟩ | hid
  · rw [hh, ho]
    refine ⟨by simpa using hlen, ?_⟩
    intro i hi hne
    by_cases hia : i = a
    · simp [hia]
    · rw [List.get?_set_ne _ _ (fun h => hia h.symm)] at hne
      exact List.mem_append_left _ (hmut i hi hne)
  · rw [hh, ho]
    exact ⟨hlen, fun i hi hne =>
      List.mem_append_left _ (hmut i hi hne)⟩
  · rw [hh, ho]
    refine ⟨by simpa using hlen, ?_⟩
    intro i hi hne
    by_cases hip : i = p
    · rw [hip]
      exact hp
    · rw [List.get?_set_ne _ _ (fun h => hip h.symm)] at hne
      exact hmut i hi hne
  · rw [hh, ho]
    refine ⟨by simp; omega, ?_⟩
    intro i hi hne
    rw [List.get?_append (by omega)] at hne
    exact List.mem_append_left _ (hmut i hi hne)
  · rw [hid]
    exact ⟨hlen, hmut⟩

/-- C6 (amended).  Consolidation is a pure function of its input value —
but it does mutate fragment objects in place; the frame property that
holds is: every input fragment object that the call modifies is part of
the returned output list, so no mutation escapes the result.  Fragments
not in the output are returned unchanged. -/
theorem consolidateH_mutation_confined :
    ∀ (fs : List Citation) (i : Nat), i < fs.length →
      (consolidateH fs).heap.get? i ≠ fs.get? i →
      i ∈ (consolidateH fs).out := by
  intro fs
  have main : ∀ (addrs : List Nat) (s : HeapState),
      (fs.length ≤ s.heap.length ∧
        ∀ i, i < fs.length → s.heap.get? i ≠ fs.get? i → i ∈ s.out) →
      fs.length ≤ (addrs.foldl consStepH s).heap.length ∧
        ∀ i, i < fs.length →
          (addrs.foldl consStepH s).heap.get? i ≠ fs.get? i →
          i ∈ (addrs.foldl consStepH s).out := by
    intro addrs
    induction addrs with
    | nil => intro s ih; exact ih
    | cons a t iht =>
      intro s ih
      exact iht (consStepH s a) (consStepH_frame fs s a ih)
  intro i hi
  exact (main (List.range fs.length) ⟨fs, [], none, none⟩
    ⟨Nat.le_refl _, fun i _ hne => absurd rfl hne⟩).2 i hi

/-- Witness for `consolidateH_mutation_confined`: consolidating
`「형법」 제20조 제1항` mutates the first input object (the law-name
fragment absorbs the article and paragraph), and indeed address 0 is in
the output. -/
theorem consolidateH_mutation_confined_witness :
    0 ∈ (consolidateH [fragLaw, fragArt20, fragPara1]).out :=
  consolidateH_mutation_confined [fragLaw, fragArt20, fragPara1] 0
    (by decide) (by decide)

/-- C6 counterexample: the call does *not* leave every input fragment
unchanged — after consolidating `「형법」 제20조 제1항`, the first input
object has been rewritten in place (article, paragraph and display text
merged into it), while the input list objects were `fragLaw`, `fragArt20`,
`fragPara1`. -/
theorem consolidate_mutates_input_fragment :
    (consolidateH [fragLaw, fragArt20, fragPara1]).heap.get? 0 ≠
      some fragLaw ∧
    (consolidateH [fragLaw, fragArt20, fragPara1]).heap.get? 0 =
      some { fragLaw with
        target_article := some 20
        target_paragraph := some 1
        target_text := "「형법」 제20조 제1항" } := by
  refine ⟨by decide, by decide⟩

/-! ## Claim C5: idempotence of consolidation

A second pass is *not* the identity in general: an article fragment merged
into an external paragraph/item fork gives the fork an article number its
block head does not have, and re-consolidation forks again from the head,
losing that number (`consolidate_not_idempotent`).  For fragment lists
without law-name fragments the external path is never taken and
idempotence holds (`consolidate_idempotent_lawname_free`). -/

/-- C5 counterexample: for the classifier fragments of
`「형법」 제1항 제3항 제7조`, a second consolidation pass changes the
result — the fork entry's merged article `제7조` is dropped because the
re-fork copies the (articleless) head's fields. -/
theorem consolidate_not_idempotent :
    consolidate (consolidate [fragLaw, fragPara1, fragPara3, fragArt7]) ≠
      consolidate [fragLaw, fragPara1, fragPara3, fragArt7] ∧
    (consolidate [fragLaw, fragPara1, fragPara3, fragArt7]).map
      (fun c => c.target_article) = [none, some 7] ∧
    (consolidate (consolidate [fragLaw, fragPara1, fragPara3,
      fragArt7])).map (fun c => c.target_article) = [none, none] := by
  refine ⟨by decide, by decide, by decide⟩

/-! ### Scanning lemmas -/

theorem scanHead_cons (h : Option Citation) (c : Citation)
    (t : List Citation) :
    scanHead h (c :: t) = scanHead (if headOK c then some c else h) t := rfl

theorem scanHead_append (h : Option Citation) (l1 l2 : List Citation) :
    scanHead h (l1 ++ l2) = scanHead (scanHead h l1) l2 := by
  simp [scanHead, List.foldl_append]

theorem scanHead_no_heads (h : Option Citation) (l : List Citation)
    (hl : ∀ c ∈ l, headOK c = false) : scanHead h l = h := by
  induction l generalizing h with
  | nil => rfl
  | cons c t ih =>
    rw [scanHead_cons, hl c (by simp), if_neg (by simp)]
    exact ih h (fun x hx => hl x (by simp [hx]))

theorem scanB_append (h : Option Citation) (l1 l2 : List Citation) :
    scanB h (l1 ++ l2) = (scanB h l1 && scanB (scanHead h l1) l2) := by
  induction l1 generalizing h with
  | nil => simp [scanB, scanHead]
  | cons c t ih =>
    rw [List.cons_append]
    by_cases hh : headOK c = true
    · simp only [scanB, hh, if_true, scanHead_cons]
      exact ih (some c)
    · have hh' : headOK c = false := Bool.eq_false_iff.2 hh
      rcases h with _ | hd
      · simp only [scanB, hh', Bool.false_eq_true, if_false,
          scanHead_cons]
        rw [ih none, Bool.and_assoc]
      · simp only [scanB, hh', Bool.false_eq_true, if_false,
          scanHead_cons]
        rw [ih (some hd), Bool.and_assoc]

theorem list_eq_take_cons_drop {α : Type _} (l : List α) (j : Nat) (a : α)
    (h : l.get? j = some a) : l = l.take j ++ a :: l.drop (j + 1) := by
  have hlt : j < l.length := (List.get?_eq_some.1 h).1
  conv_lhs => rw [← List.take_append_drop j l]
  rw [List.drop_eq_getElem_cons hlt]
  congr 1
  have := List.get?_eq_getElem? l j
  rw [h] at this
  simp [List.getElem?_eq_getElem hlt] at this
  simp [this]

theorem scanHead_decomp (out : List Citation) (j : Nat) (hd : Citation)
    (hj : out.get? j = some hd) (hhd : headOK hd = true)
    (hnh : ∀ x ∈ out.drop (j + 1), headOK x = false) :
    scanHead none out = some hd := by
  conv_lhs => rw [list_eq_take_cons_drop out j hd hj]
  rw [scanHead_append, scanHead_cons, if_pos hhd]
  exact scanHead_no_heads _ _ hnh

/-- Splitting the shape check of a well-shaped list at its last head. -/
theorem scanB_split_at_head (out : List Citation) (j : Nat) (hd : Citation)
    (hj : out.get? j = some hd)
    (hscan : scanB none out = true) :
    scanB none (out.take j) = true ∧
      scanB (scanHead none (out.take j)) (hd :: out.drop (j + 1)) = true := by
  have hdec := list_eq_take_cons_drop out j hd hj
  rw [hdec, scanB_append] at hscan
  exact ⟨(Bool.and_eq_true _ _ ▸ hscan).1, (Bool.and_eq_true _ _ ▸ hscan).2⟩

theorem forkFromInternal_self (hd c : Citation)
    (h1 : c.citation_type = "internal")
    (h2 : c.target_law_name = hd.target_law_name)
    (h3 : c.target_article = hd.target_article)
    (h4 : c.target_article_branch = hd.target_article_branch)
    (h5 : c.target_subitem = none) :
    forkFromInternal hd c = c := by
  cases c
  simp_all [forkFromInternal]

/-- Components of a `forkOK` check. -/
theorem forkOK_spec {c hd : Citation} (h : forkOK c hd = true) :
    isSfon34 c = true ∧ c.citation_type = "internal" ∧
    c.target_law_name = hd.target_law_name ∧
    c.target_article = hd.target_article ∧
    c.target_article_branch = hd.target_article_branch ∧
    c.target_subitem = none ∧ collide c hd = true := by
  simp only [forkOK, Bool.and_eq_true, beq_iff_eq] at h
  exact ⟨h.1.1.1.1.1.1, h.1.1.1.1.1.2, h.1.1.1.1.2, h.1.1.1.2, h.1.1.2,
    h.1.2, h.2⟩

/-- Re-running the consolidation loop over a well-shaped list (no external
context, pending index realising the threaded head) appends every entry
unchanged. -/
theorem run2_id : ∀ (l : List Citation) (s : ConsState)
    (h : Option Citation),
    scanB h l = true →
    s.current_external_law = none →
    (match h with
     | none => s.current_internal_article_idx = none
     | some hd => ∃ j, s.current_internal_article_idx = some j ∧
         s.out.get? j = some hd ∧ headOK hd = true) →
    (l.foldl consStep s).out = s.out ++ l := by
  intro l
  induction l with
  | nil =>
    intro s h _ _ _
    simp
  | cons c t ih =>
    intro s h hscan hext hrel
    have hextF : truthyS s.current_external_law = false := by
      rw [hext]
      rfl
    have hg : (truthyS s.current_external_law &&
        decide (0 < s.out.length)) = false := by
      rw [hextF]
      rfl
    simp only [List.foldl_cons]
    by_cases hhead : headOK c = true
    · have hscan2 : scanB (some c) t = true := by
        simp only [scanB, hhead, if_true] at hscan
        exact hscan
      have hc2 : c.link_class = "sfon2" ∧ c.citation_type = "internal" := by
        simpa [headOK] using hhead
      have hstep := consStep_eq_sfon2_fall_extFalse s c hc2.1 hextF
      rw [set_internal_self hc2.2] at hstep
      rw [hstep]
      have hrec := ih ⟨s.out ++ [c], none, some s.out.length⟩ (some c) hscan2
        rfl ⟨s.out.length, rfl, List.get?_concat_length s.out c, hhead⟩
      rw [hrec]
      simp
    · have hheadF : headOK c = false := Bool.eq_false_iff.2 hhead
      rcases h with _ | hd
      · have hp : standaloneOK c = true ∧ scanB none t = true := by
          simp only [scanB, hheadF, Bool.false_eq_true, if_false] at hscan
          simpa using hscan
        have hsa : isSfon34 c = true ∧ c.citation_type = "internal" := by
          simpa [standaloneOK] using hp.1
        have hstep := consStep_eq_sfon34_idxNone s c hsa.1 hg hrel
        rw [set_internal_self hsa.2] at hstep
        rw [hstep]
        have hrec := ih ⟨s.out ++ [c], s.current_external_law,
          s.current_internal_article_idx⟩ none hp.2 hext hrel
        rw [hrec]
        simp
      · obtain ⟨j, hidx, hj, hhd⟩ := hrel
        have hhdp : hd.link_class = "sfon2" ∧ hd.citation_type =
            "internal" := by
          simpa [headOK] using hhd
        have hjlt : j < s.out.length := (List.get?_eq_some.1 hj).1
        have hjnew : (s.out ++ [c]).get? j = some hd := by
          rw [List.get?_append hjlt]
          exact hj
        by_cases hart : truthyN hd.target_article = true
        · have hp : forkOK c hd = true ∧ scanB (some hd) t = true := by
            simp only [scanB, hheadF, Bool.false_eq_true, if_false, hart,
              if_true] at hscan
            simpa using hscan
          obtain ⟨hf1, hf2, hf3, hf4, hf5, hf6, hf7⟩ := forkOK_spec hp.1
          have hstep := consStep_eq_sfon34_intFork s c hd j hf1 hg hidx hj
            hhdp.2 hart hf7
          rw [forkFromInternal_self hd c hf2 hf3 hf4 hf5 hf6] at hstep
          rw [hstep]
          have hrec := ih ⟨s.out ++ [c], s.current_external_law,
            s.current_internal_article_idx⟩ (some hd) hp.2 hext
            ⟨j, hidx, hjnew, hhd⟩
          rw [hrec]
          simp
        · have hartf : truthyN hd.target_article = false :=
            Bool.eq_false_iff.2 hart
          have hp : standaloneOK c = true ∧ scanB (some hd) t = true := by
            simp only [scanB, hheadF, Bool.false_eq_true, if_false, hartf]
              at hscan
            simpa using hscan
          have hsa : isSfon34 c = true ∧ c.citation_type = "internal" := by
            simpa [standaloneOK] using hp.1
          have hcond : (hd.citation_type == "internal" &&
              truthyN hd.target_article) = false := by
            rw [hartf]
            simp
          have hstep := consStep_eq_sfon34_intStandalone s c hd j hsa.1 hg
            hidx hj hcond
          rw [set_internal_self hsa.2] at hstep
          rw [hstep]
          have hrec := ih ⟨s.out ++ [c], s.current_external_law,
            s.current_internal_article_idx⟩ (some hd) hp.2 hext
            ⟨j, hidx, hjnew, hhd⟩
          rw [hrec]
          simp

/-- A well-shaped list is a fixed point of `consolidate`. -/
theorem consolidate_fixed_of_scan (l : List Citation)
    (hscan : scanB none l = true) : consolidate l = l := by
  have h := run2_id l consInit none hscan rfl rfl
  simpa [consolidate, consRun, consInit] using h

/-! ### The consolidation run preserves `InternalShape` -/

theorem truthyN_mergeParaItem_para (hd c : Citation) :
    truthyN (mergeParaItem hd c).target_paragraph =
      (truthyN c.target_paragraph || truthyN hd.target_paragraph) := by
  by_cases h : truthyN c.target_paragraph = true <;>
    simp [mergeParaItem, h]

theorem truthyN_mergeParaItem_item (hd c : Citation) :
    truthyN (mergeParaItem hd c).target_item =
      (truthyN c.target_item || truthyN hd.target_item) := by
  by_cases h : truthyN c.target_item = true <;>
    simp [mergeParaItem, h]

theorem collide_mergeParaItem (e hd c : Citation)
    (h : collide e hd = true) : collide e (mergeParaItem hd c) = true := by
  simp only [collide, Bool.or_eq_true, Bool.and_eq_true] at h ⊢
  rcases h with ⟨h1, h2⟩ | ⟨h1, h2⟩
  · exact Or.inl ⟨h1, by rw [truthyN_mergeParaItem_para]; simp [h2]⟩
  · exact Or.inr ⟨h1, by rw [truthyN_mergeParaItem_item]; simp [h2]⟩

theorem forkOK_mergeParaItem (e hd c : Citation)
    (h : forkOK e hd = true) : forkOK e (mergeParaItem hd c) = true := by
  obtain ⟨a1, a2, a3, a4, a5, a6, a7⟩ := forkOK_spec h
  have hcol := collide_mergeParaItem e hd c a7
  simp only [forkOK, Bool.and_eq_true, beq_iff_eq]
  exact ⟨⟨⟨⟨⟨⟨a1, a2⟩, a3⟩, a4⟩, a5⟩, a6⟩, hcol⟩

theorem scanB_mergeUpd (hd c : Citation) (rest : List Citation)
    (hnh : ∀ x ∈ rest, headOK x = false)
    (hs : scanB (some hd) rest = true) :
    scanB (some (mergeParaItem hd c)) rest = true := by
  induction rest with
  | nil => rfl
  | cons e es ih =>
    have he : headOK e = false := hnh e (by simp)
    simp only [scanB, he, Bool.false_eq_true, if_false] at hs ⊢
    rw [Bool.and_eq_true] at hs ⊢
    obtain ⟨hfst, hrest⟩ := hs
    refine ⟨?_, ih (fun x hx => hnh x (by simp [hx])) hrest⟩
    by_cases hart : truthyN hd.target_article = true
    · rw [if_pos hart] at hfst
      rw [if_pos (show truthyN (mergeParaItem hd c).target_article = true
        from hart)]
      exact forkOK_mergeParaItem e hd c hfst
    · rw [if_neg hart] at hfst
      rw [if_neg (show ¬ truthyN (mergeParaItem hd c).target_article = true
        from hart)]
      exact hfst

theorem internalShape_step (s : ConsState) (c : Citation)
    (hc1 : c.link_class ≠ "sfon1") (hs : InternalShape s) :
    InternalShape (consStep s c) := by
  obtain ⟨hext, hscan, hstruct⟩ := hs
  have hextF : truthyS s.current_external_law = false := by
    rw [hext]
    rfl
  have hg : (truthyS s.current_external_law &&
      decide (0 < s.out.length)) = false := by
    rw [hextF]
    rfl
  by_cases h2 : c.link_class = "sfon2"
  · have hstep := consStep_eq_sfon2_fall_extFalse s c h2 hextF
    rw [hstep]
    have hh : headOK { c with citation_type := "internal" } = true := by
      simp [headOK, h2]
    refine ⟨rfl, ?_, Or.inr ⟨s.out.length,
      { c with citation_type := "internal" }, rfl,
      List.get?_concat_length _ _, hh, ?_⟩⟩
    · rw [scanB_append, hscan, Bool.true_and]
      simp [scanB, hh]
    · intro x hx
      have : (s.out ++ [{ c with citation_type := "internal" }]).length ≤
          s.out.length + 1 := by simp
      rw [List.drop_eq_nil_of_le this] at hx
      cases hx
  · by_cases h34 : isSfon34 c = true
    · have hh : headOK { c with citation_type := "internal" } = false := by
        rcases isSfon34_classes h34 with hc | hc <;> simp [headOK, hc]
      have hsa : standaloneOK { c with citation_type := "internal" } =
          true := by
        rcases isSfon34_classes h34 with hc | hc <;>
          simp [standaloneOK, isSfon34, hc]
      rcases hstruct with ⟨hidx, hnh⟩ | ⟨j, hd, hidx, hj, hhd, hnh⟩
      · have hstep := consStep_eq_sfon34_idxNone s c h34 hg hidx
        rw [hstep]
        refine ⟨hext, ?_, Or.inl ⟨hidx, ?_⟩⟩
        · rw [scanB_append, hscan, Bool.true_and,
            scanHead_no_heads none s.out hnh]
          simp [scanB, hh, hsa]
        · intro x hx
          rcases List.mem_append.1 hx with hx | hx
          · exact hnh x hx
          · rw [List.mem_singleton.1 hx]
            exact hh
      · have hhdp : hd.link_class = "sfon2" ∧
            hd.citation_type = "internal" := by
          simpa [headOK] using hhd
        have hjlt : j < s.out.length := (List.get?_eq_some.1 hj).1
        have hsplit := scanB_split_at_head s.out j hd hj hscan
        have hh0 := scanHead_decomp s.out j hd hj hhd hnh
        have hrest : scanB (some hd) (s.out.drop (j + 1)) = true := by
          have h2nd := hsplit.2
          simpa [scanB, hhd] using h2nd
        have hjapp : ∀ y : Citation, (s.out ++ [y]).get? j = some hd := by
          intro y
          rw [List.get?_append hjlt]
          exact hj
        have hdroppapp : ∀ y : Citation,
            (s.out ++ [y]).drop (j + 1) = s.out.drop (j + 1) ++ [y] :=
          fun y => List.drop_append_of_le_length (by omega)
        by_cases hart : truthyN hd.target_article = true
        · by_cases hcol : collide c hd = true
          · have hstep := consStep_eq_sfon34_intFork s c hd j h34 hg hidx hj
              hhdp.2 hart hcol
            rw [hstep]
            have hFhead : headOK (forkFromInternal hd c) = false := by
              rcases isSfon34_classes h34 with hc | hc <;>
                simp [headOK, forkFromInternal, hc]
            have hFfork : forkOK (forkFromInternal hd c) hd = true := by
              have hcolF : collide (forkFromInternal hd c) hd = true := hcol
              have h34F : isSfon34 (forkFromInternal hd c) = true := h34
              simp only [forkOK, Bool.and_eq_true, beq_iff_eq]
              exact ⟨⟨⟨⟨⟨⟨h34F, rfl⟩, rfl⟩, rfl⟩, rfl⟩, rfl⟩, hcolF⟩
            refine ⟨hext, ?_, Or.inr ⟨j, hd, hidx, hjapp _, hhd, ?_⟩⟩
            · rw [scanB_append, hscan, Bool.true_and, hh0]
              simp [scanB, hFhead, hart, hFfork]
            · rw [hdroppapp _]
              intro x hx
              rcases List.mem_append.1 hx with hx | hx
              · exact hnh x hx
              · rw [List.mem_singleton.1 hx]
                exact hFhead
          · have hstep := consStep_eq_sfon34_intMerge s c hd j h34 hg hidx
              hj hhdp.2 hart (Bool.eq_false_iff.2 hcol)
            rw [hstep]
            have hd'head : headOK (mergeParaItem hd c) = true := hhd
            have hset : s.out.set j (mergeParaItem hd c) =
                s.out.take j ++ mergeParaItem hd c :: s.out.drop (j + 1) := by
              rw [List.set_eq_take_append_cons_drop, if_pos hjlt]
            refine ⟨hext, ?_, Or.inr ⟨j, mergeParaItem hd c, hidx, ?_,
              hd'head, ?_⟩⟩
            · rw [hset, scanB_append, hsplit.1, Bool.true_and]
              have hupd := scanB_mergeUpd hd c _ hnh hrest
              simp [scanB, hd'head, hupd]
            · rw [List.get?_eq_getElem?, List.getElem?_set_self',
                ← List.get?_eq_getElem?, hj]
              rfl
            · rw [List.drop_set_of_lt _ _ (by omega)]
              exact hnh
        · have hartf : truthyN hd.target_article = false :=
            Bool.eq_false_iff.2 hart
          have hcond : (hd.citation_type == "internal" &&
              truthyN hd.target_article) = false := by
            rw [hartf]
            simp
          have hstep := consStep_eq_sfon34_intStandalone s c hd j h34 hg
            hidx hj hcond
          rw [hstep]
          refine ⟨hext, ?_, Or.inr ⟨j, hd, hidx, hjapp _, hhd, ?_⟩⟩
          · rw [scanB_append, hscan, Bool.true_and, hh0]
            simp [scanB, hh, hartf, hsa]
          · rw [hdroppapp _]
            intro x hx
            rcases List.mem_append.1 hx with hx | hx
            · exact hnh x hx
            · rw [List.mem_singleton.1 hx]
              exact hh
    · have h3 : c.link_class ≠ "sfon3" := fun hq =>
        h34 (by simp [isSfon34, hq])
      have h4 : c.link_class ≠ "sfon4" := fun hq =>
        h34 (by simp [isSfon34, hq])
      rw [consStep_eq_other s c hc1 h2 h3 h4]
      exact ⟨hext, hscan, hstruct⟩

/-- A consolidation run over a law-name-free fragment list ends in a
well-shaped state. -/
theorem consolidate_internalShape (fs : List Citation)
    (hfree : ∀ c ∈ fs, c.link_class ≠ "sfon1") :
    InternalShape (consRun fs) := by
  have main : ∀ (l : List Citation) (s : ConsState),
      (∀ c ∈ l, c.link_class ≠ "sfon1") → InternalShape s →
      InternalShape (l.foldl consStep s) := by
    intro l
    induction l with
    | nil => intro s _ hs; exact hs
    | cons c t ih =>
      intro s hl hs
      exact ih (consStep s c) (fun x hx => hl x (List.mem_cons_of_mem c hx))
        (internalShape_step s c (hl c (List.mem_cons_self c t)) hs)
  exact main fs consInit hfree
    ⟨rfl, rfl, Or.inl ⟨rfl, fun x hx => absurd hx (List.not_mem_nil x)⟩⟩

/-- C5 (amended).  Consolidation is idempotent on every fragment list that
contains no law-name (`sfon1`) fragment: a second application returns the
first application's output unchanged.  (With law-name fragments present, a
second pass can differ — see `consolidate_not_idempotent`.) -/
theorem consolidate_idempotent_lawname_free :
    ∀ fs : List Citation, (∀ c ∈ fs, c.link_class ≠ "sfon1") →
      consolidate (consolidate fs) = consolidate fs := by
  intro fs hfree
  exact consolidate_fixed_of_scan _ (consolidate_internalShape fs hfree).2.1

/-- Witness for `consolidate_idempotent_lawname_free` at the fork example
`제20조 제1항 제3항`. -/
theorem consolidate_idempotent_lawname_free_witness :
    consolidate (consolidate [fragArt20, fragPara1, fragPara3]) =
      consolidate [fragArt20, fragPara1, fragPara3] :=
  consolidate_idempotent_lawname_free [fragArt20, fragPara1, fragPara3]
    (by decide)

/-! ### Agreement of the heap model with the value model

The heap model runs the same loop over object addresses; reading the final
output addresses back from the final heap gives exactly `consolidate`.
This ties the aliasing model used for the frame claims to the value model
used everywhere else. -/

theorem heapGet_set_ne (heap : List Citation) (v : Citation) (p x : Nat)
    (h : p ≠ x) : heapGet (heap.set p v) x = heapGet heap x := by
  simp [heapGet, List.get?_eq_getElem?, List.getElem?_set_ne h]

theorem heapGet_set_self (heap : List Citation) (v : Citation) (p : Nat)
    (hp : p < heap.length) : heapGet (heap.set p v) p = v := by
  have h1 : (heap.set p v)[p]? = some v := by
    rw [List.getElem?_set_self', List.getElem?_eq_getElem hp]
    rfl
  simp [heapGet, List.get?_eq_getElem?, h1]

theorem heapGet_append_left (heap : List Citation) (v : Citation) (x : Nat)
    (hx : x < heap.length) : heapGet (heap ++ [v]) x = heapGet heap x := by
  simp [heapGet, List.get?_eq_getElem?, List.getElem?_append_left hx]

theorem heapGet_append_last (heap : List Citation) (v : Citation) :
    heapGet (heap ++ [v]) heap.length = v := by
  simp [heapGet, List.get?_concat_length]

theorem map_heapGet_set (heap : List Citation) (v : Citation) :
    ∀ (out : List Nat) (j p : Nat), out.get? j = some p → out.Nodup →
      p < heap.length →
      out.map (heapGet (heap.set p v)) =
        (out.map (heapGet heap)).set j v := by
  intro out
  induction out with
  | nil =>
    intro j p hj
    simp at hj
  | cons q t ih =>
    intro j p hj hnd hp
    cases j with
    | zero =>
      have hqp : q = p := by simpa using hj
      have hpnott : p ∉ t := by
        rw [← hqp]
        exact (List.nodup_cons.1 hnd).1
      have hrest : t.map (heapGet (heap.set p v)) =
          t.map (heapGet heap) := by
        apply List.map_congr_left
        intro x hx
        exact heapGet_set_ne heap v p x (fun hq => hpnott (hq ▸ hx))
      simp only [List.map_cons, List.set]
      rw [hqp, heapGet_set_self heap v p hp, hrest]
    | succ k =>
      have hjt : t.get? k = some p := hj
      have hqp : p ≠ q := by
        intro hq
        exact (List.nodup_cons.1 hnd).1 (hq ▸ List.get?_mem hjt)
      simp only [List.map_cons, List.set]
      rw [heapGet_set_ne heap v p q hqp,
        ih k p hjt (List.nodup_cons.1 hnd).2 hp]

/-- Invariant parts for a step that rewrites the incoming object at
address `a` to `w` and appends its address. -/
theorem agreeParts_setA (fs : List Citation) (a : Nat) (w : Citation)
    (sh : HeapState) (sp : ConsState)
    (h1 : sp.out = sh.out.map (heapGet sh.heap))
    (h4 : fs.length ≤ sh.heap.length)
    (h5 : ∀ i, a ≤ i → i < fs.length → sh.heap.get? i = fs.get? i)
    (h6 : ∀ p ∈ sh.out, p < sh.heap.length ∧ (p < a ∨ fs.length ≤ p))
    (h7 : sh.out.Nodup)
    (haheap : a < sh.heap.length)
    (hanotin : a ∉ sh.out) :
    sp.out ++ [w] = (sh.out ++ [a]).map (heapGet (sh.heap.set a w)) ∧
    fs.length ≤ (sh.heap.set a w).length ∧
    (∀ i, a + 1 ≤ i → i < fs.length →
      (sh.heap.set a w).get? i = fs.get? i) ∧
    (∀ p ∈ sh.out ++ [a],
      p < (sh.heap.set a w).length ∧ (p < a + 1 ∨ fs.length ≤ p)) ∧
    (sh.out ++ [a]).Nodup := by
  refine ⟨?_, by simpa using h4, ?_, ?_, ?_⟩
  · rw [List.map_append]
    congr 1
    · rw [h1]
      symm
      apply List.map_congr_left
      intro p hp
      exact heapGet_set_ne _ _ a p (fun hq => hanotin (hq ▸ hp))
    · simp [heapGet_set_self sh.heap w a haheap]
  · intro i hi1 hi2
    rw [List.get?_set_ne _ _ (by omega : a ≠ i)]
    exact h5 i (by omega) hi2
  · intro p hp
    rcases List.mem_append.1 hp with hp | hp
    · obtain ⟨hb, hd⟩ := h6 p hp
      refine ⟨by simpa using hb, ?_⟩
      rcases hd with h | h
      · exact Or.inl (by omega)
      · exact Or.inr h
    · rw [List.mem_singleton.1 hp]
      exact ⟨by simpa using haheap, Or.inl (by omega)⟩
  · rw [List.nodup_append]
    exact ⟨h7, List.nodup_singleton a,
      fun p hp hpa => hanotin ((List.mem_singleton.1 hpa) ▸ hp)⟩

/-- Invariant parts for a step that appends the incoming address without
touching the heap. -/
theorem agreeParts_appendB (fs : List Citation) (a : Nat)
    (sh : HeapState) (sp : ConsState)
    (h1 : sp.out = sh.out.map (heapGet sh.heap))
    (h4 : fs.length ≤ sh.heap.length)
    (h5 : ∀ i, a ≤ i → i < fs.length → sh.heap.get? i = fs.get? i)
    (h6 : ∀ p ∈ sh.out, p < sh.heap.length ∧ (p < a ∨ fs.length ≤ p))
    (h7 : sh.out.Nodup)
    (haheap : a < sh.heap.length)
    (hanotin : a ∉ sh.out) :
    sp.out ++ [heapGet sh.heap a] = (sh.out ++ [a]).map (heapGet sh.heap) ∧
    fs.length ≤ sh.heap.length ∧
    (∀ i, a + 1 ≤ i → i < fs.length → sh.heap.get? i = fs.get? i) ∧
    (∀ p ∈ sh.out ++ [a],
      p < sh.heap.length ∧ (p < a + 1 ∨ fs.length ≤ p)) ∧
    (sh.out ++ [a]).Nodup := by
  refine ⟨?_, h4, fun i hi1 hi2 => h5 i (by omega) hi2, ?_, ?_⟩
  · rw [List.map_append, h1]
    rfl
  · intro p hp
    rcases List.mem_append.1 hp with hp | hp
    · obtain ⟨hb, hd⟩ := h6 p hp
      refine ⟨hb, ?_⟩
      rcases hd with h | h
      · exact Or.inl (by omega)
      · exact Or.inr h
    · rw [List.mem_singleton.1 hp]
      exact ⟨haheap, Or.inl (by omega)⟩
  · rw [List.nodup_append]
    exact ⟨h7, List.nodup_singleton a,
      fun p hp hpa => hanotin ((List.mem_singleton.1 hpa) ▸ hp)⟩

/-- Invariant parts for a step that rewrites the output entry at position
`j` (heap address `p`) in place. -/
theorem agreeParts_setMember (fs : List Citation) (a : Nat) (w : Citation)
    (sh : HeapState) (sp : ConsState) (j p : Nat)
    (h1 : sp.out = sh.out.map (heapGet sh.heap))
    (h4 : fs.length ≤ sh.heap.length)
    (h5 : ∀ i, a ≤ i → i < fs.length → sh.heap.get? i = fs.get? i)
    (h6 : ∀ p ∈ sh.out, p < sh.heap.length ∧ (p < a ∨ fs.length ≤ p))
    (h7 : sh.out.Nodup)
    (hpj : sh.out.get? j = some p) :
    sp.out.set j w = sh.out.map (heapGet (sh.heap.set p w)) ∧
    fs.length ≤ (sh.heap.set p w).length ∧
    (∀ i, a + 1 ≤ i → i < fs.length →
      (sh.heap.set p w).get? i = fs.get? i) ∧
    (∀ q ∈ sh.out,
      q < (sh.heap.set p w).length ∧ (q < a + 1 ∨ fs.length ≤ q)) ∧
    sh.out.Nodup := by
  obtain ⟨hpb, hpd⟩ := h6 p (List.get?_mem hpj)
  refine ⟨?_, by simpa using h4, ?_, ?_, h7⟩
  · rw [h1, map_heapGet_set sh.heap w sh.out j p hpj h7 hpb]
  · intro i hi1 hi2
    have hip : p ≠ i := by
      rcases hpd with h | h <;> omega
    rw [List.get?_set_ne _ _ hip]
    exact h5 i (by omega) hi2
  · intro q hq
    obtain ⟨hb, hd⟩ := h6 q hq
    refine ⟨by simpa using hb, ?_⟩
    rcases hd with h | h
    · exact Or.inl (by omega)
    · exact Or.inr h

/-- Invariant parts for a step that allocates a fork object and appends
its fresh address. -/
theorem agreeParts_fork (fs : List Citation) (a : Nat) (F : Citation)
    (sh : HeapState) (sp : ConsState)
    (h1 : sp.out = sh.out.map (heapGet sh.heap))
    (h4 : fs.length ≤ sh.heap.length)
    (h5 : ∀ i, a ≤ i → i < fs.length → sh.heap.get? i = fs.get? i)
    (h6 : ∀ p ∈ sh.out, p < sh.heap.length ∧ (p < a ∨ fs.length ≤ p))
    (h7 : sh.out.Nodup) :
    sp.out ++ [F] =
      (sh.out ++ [sh.heap.length]).map (heapGet (sh.heap ++ [F])) ∧
    fs.length ≤ (sh.heap ++ [F]).length ∧
    (∀ i, a + 1 ≤ i → i < fs.length →
      (sh.heap ++ [F]).get? i = fs.get? i) ∧
    (∀ p ∈ sh.out ++ [sh.heap.length],
      p < (sh.heap ++ [F]).length ∧ (p < a + 1 ∨ fs.length ≤ p)) ∧
    (sh.out ++ [sh.heap.length]).Nodup := by
  have hnotin : sh.heap.length ∉ sh.out := by
    intro hmem
    have := (h6 _ hmem).1
    omega
  refine ⟨?_, by simp; omega, ?_, ?_, ?_⟩
  · rw [List.map_append]
    congr 1
    · rw [h1]
      symm
      apply List.map_congr_left
      intro p hp
      exact heapGet_append_left sh.heap F p (h6 p hp).1
    · simp [heapGet_append_last]
  · intro i hi1 hi2
    rw [List.get?_append (by omega)]
    exact h5 i (by omega) hi2
  · intro p hp
    rcases List.mem_append.1 hp with hp | hp
    · obtain ⟨hb, hd⟩ := h6 p hp
      refine ⟨by simp; omega, ?_⟩
      rcases hd with h | h
      · exact Or.inl (by omega)
      · exact Or.inr h
    · rw [List.mem_singleton.1 hp]
      exact ⟨by simp, Or.inr (by omega)⟩
  · rw [List.nodup_append]
    exact ⟨h7, List.nodup_singleton _,
      fun p hp hpa => hnotin ((List.mem_singleton.1 hpa) ▸ hp)⟩

/-- One loop iteration preserves the heap/value simulation. -/
theorem step_agree (fs : List Citation) (a : Nat) (c : Citation)
    (sh : HeapState) (sp : ConsState)
    (hc : fs.get? a = some c)
    (hag : HeapAgree fs a sh sp) :
    HeapAgree fs (a + 1) (consStepH sh a) (consStep sp c) := by
  obtain ⟨h1, h2, h3, h4, h5, h6, h7⟩ := hag
  have halt : a < fs.length := (List.get?_eq_some.1 hc).1
  have hheapa : sh.heap.get? a = some c := by
    rw [h5 a (Nat.le_refl a) halt]
    exact hc
  have hga : heapGet sh.heap a = c := by
    unfold heapGet
    rw [hheapa]
    rfl
  have haheap : a < sh.heap.length := by omega
  have hanotin : a ∉ sh.out := by
    intro ha
    rcases (h6 a ha).2 with h | h <;> omega
  have hlen_eq : sp.out.length = sh.out.length := by
    rw [h1, List.length_map]
  by_cases hc1 : c.link_class = "sfon1"
  · have hB := agreeParts_appendB fs a sh sp h1 h4 h5 h6 h7 haheap hanotin
    rw [hga] at hB
    by_cases he : c.citation_type = "external"
    · have hH : consStepH sh a =
          ⟨sh.heap, sh.out ++ [a], c.target_law_name, none⟩ := by
        simp [consStepH, hga, hc1, he]
      rw [hH, consStep_eq_sfon1_ext sp c hc1 he]
      exact ⟨hB.1, rfl, rfl, hB.2.1, hB.2.2.1, hB.2.2.2.1, hB.2.2.2.2⟩
    · have hH : consStepH sh a = ⟨sh.heap, sh.out ++ [a], none, none⟩ := by
        simp [consStepH, hga, hc1, he]
      rw [hH, consStep_eq_sfon1_notExt sp c hc1 he]
      exact ⟨hB.1, rfl, rfl, hB.2.1, hB.2.2.1, hB.2.2.2.1, hB.2.2.2.2⟩
  · have hA := agreeParts_setA fs a { c with citation_type := "internal" }
      sh sp h1 h4 h5 h6 h7 haheap hanotin
    by_cases hc2 : c.link_class = "sfon2"
    · by_cases hg : (truthyS sh.current_external_law &&
          decide (0 < sh.out.length)) = true
      · have hxT : truthyS sh.current_external_law = true :=
          ((Bool.and_eq_true _ _) ▸ hg).1
        have hlpos : 0 < sh.out.length :=
          of_decide_eq_true ((Bool.and_eq_true _ _) ▸ hg).2
        rcases hl : sh.out.getLast? with _ | lastAddr
        · rw [List.getLast?_eq_none_iff] at hl
          rw [hl] at hlpos
          cases hlpos
        · have hplast : sp.out.getLast? =
              some (heapGet sh.heap lastAddr) := by
            rw [h1, List.getLast?_map, hl]
            rfl
          have hxP : truthyS sp.current_external_law = true := by
            rw [h2]
            exact hxT
          by_cases hcond : ((heapGet sh.heap lastAddr).citation_type ==
              "external" && (heapGet sh.heap lastAddr).target_law_name ==
              sh.current_external_law) = true
          · have hpc : (heapGet sh.heap lastAddr).citation_type =
                "external" ∧ (heapGet sh.heap lastAddr).target_law_name =
                sh.current_external_law := by
              simpa using hcond
            by_cases ha : (heapGet sh.heap lastAddr).target_article = none
            · -- merge into external entry, both models
              have hH : consStepH sh a =
                  ⟨sh.heap.set lastAddr
                    { heapGet sh.heap lastAddr with
                      target_article := c.target_article
                      target_article_branch := c.target_article_branch
                      target_text :=
                        (heapGet sh.heap lastAddr).target_text ++ " " ++
                          c.target_text },
                   sh.out, sh.current_external_law, none⟩ := by
                simp [consStepH, hga, hc1, hc2, hg, hl, hcond, ha]
              have hpj : sh.out.get? (sh.out.length - 1) = some lastAddr := by
                rw [List.get?_eq_getElem?, ← List.getLast?_eq_getElem?]
                exact hl
              have hM := agreeParts_setMember fs a
                { heapGet sh.heap lastAddr with
                  target_article := c.target_article
                  target_article_branch := c.target_article_branch
                  target_text :=
                    (heapGet sh.heap lastAddr).target_text ++ " " ++
                      c.target_text }
                sh sp (sh.out.length - 1) lastAddr h1 h4 h5 h6 h7 hpj
              rw [hH, consStep_eq_sfon2_merge sp c (heapGet sh.heap lastAddr)
                hc2 hplast hxP hpc.1 (by rw [h2]; exact hpc.2) ha]
              refine ⟨?_, h2, rfl, hM.2.1, hM.2.2.1, hM.2.2.2.1,
                hM.2.2.2.2⟩
              rw [hlen_eq]
              exact hM.1
            · -- external entry already has an article: fall through
              have hH : consStepH sh a =
                  ⟨sh.heap.set a { c with citation_type := "internal" },
                   sh.out ++ [a], none, some sh.out.length⟩ := by
                simp [consStepH, hga, hc1, hc2, hg, hl, hcond, ha]
              rw [hH, consStep_eq_sfon2_fall_article sp c
                (heapGet sh.heap lastAddr) hc2 hplast ha]
              refine ⟨hA.1, rfl, by rw [hlen_eq], hA.2.1, hA.2.2.1,
                hA.2.2.2.1, hA.2.2.2.2⟩
          · -- last entry does not match: fall through
            have hcondP : ((heapGet sh.heap lastAddr).citation_type ==
                "external" && (heapGet sh.heap lastAddr).target_law_name ==
                sp.current_external_law) = false := by
              rw [h2]
              exact Bool.eq_false_iff.2 hcond
            have hH : consStepH sh a =
                ⟨sh.heap.set a { c with citation_type := "internal" },
                 sh.out ++ [a], none, some sh.out.length⟩ := by
              simp [consStepH, hga, hc1, hc2, hg, hl,
                Bool.eq_false_iff.2 hcond]
            rw [hH, consStep_eq_sfon2_fall_mismatch sp c
              (heapGet sh.heap lastAddr) hc2 hplast hcondP]
            exact ⟨hA.1, rfl, by rw [hlen_eq], hA.2.1, hA.2.2.1,
              hA.2.2.2.1, hA.2.2.2.2⟩
      · -- guard false: fall through in both models
        have hH : consStepH sh a =
            ⟨sh.heap.set a { c with citation_type := "internal" },
             sh.out ++ [a], none, some sh.out.length⟩ := by
          simp [consStepH, hga, hc1, hc2, Bool.eq_false_iff.2 hg]
        by_cases hx : truthyS sh.current_external_law = true
        · have hout : sh.out = [] := by
            rcases hq : sh.out with _ | _
            · rfl
            · exfalso
              apply hg
              rw [hx, hq]
              simp
          have houtP : sp.out = [] := by
            rw [h1, hout]
            rfl
          rw [hH, consStep_eq_sfon2_fall_empty sp c hc2 houtP]
          exact ⟨hA.1, rfl, by rw [hlen_eq], hA.2.1, hA.2.2.1,
            hA.2.2.2.1, hA.2.2.2.2⟩
        · have hxP : truthyS sp.current_external_law = false := by
            rw [h2]
            exact Bool.eq_false_iff.2 hx
          rw [hH, consStep_eq_sfon2_fall_extFalse sp c hc2 hxP]
          exact ⟨hA.1, rfl, by rw [hlen_eq], hA.2.1, hA.2.2.1,
            hA.2.2.2.1, hA.2.2.2.2⟩
    · by_cases h34 : isSfon34 c = true
      · have h34b : (c.link_class == "sfon3" ||
            c.link_class == "sfon4") = true := h34
        have hgP_of : (truthyS sh.current_external_law &&
            decide (0 < sh.out.length)) = false →
            (truthyS sp.current_external_law &&
              decide (0 < sp.out.length)) = false := by
          intro hgF
          rw [h2, hlen_eq]
          exact hgF
        by_cases hg : (truthyS sh.current_external_law &&
            decide (0 < sh.out.length)) = true
        · have hxT : truthyS sh.current_external_law = true :=
            ((Bool.and_eq_true _ _) ▸ hg).1
          have hlpos : 0 < sh.out.length :=
            of_decide_eq_true ((Bool.and_eq_true _ _) ▸ hg).2
          rcases hl : sh.out.getLast? with _ | lastAddr
          · rw [List.getLast?_eq_none_iff] at hl
            rw [hl] at hlpos
            cases hlpos
          · have hplast : sp.out.getLast? =
                some (heapGet sh.heap lastAddr) := by
              rw [h1, List.getLast?_map, hl]
              rfl
            have hxP : truthyS sp.current_external_law = true := by
              rw [h2]
              exact hxT
            by_cases hcond : ((heapGet sh.heap lastAddr).citation_type ==
                "external" && (heapGet sh.heap lastAddr).target_law_name ==
                sh.current_external_law) = true
            · have hpc : (heapGet sh.heap lastAddr).citation_type =
                  "external" ∧ (heapGet sh.heap lastAddr).target_law_name =
                  sh.current_external_law := by
                simpa using hcond
              by_cases hcol : collide c (heapGet sh.heap lastAddr) = true
              · -- fork from the external entry, both models
                have hH : consStepH sh a =
                    ⟨sh.heap ++ [forkFromExternal
                        (heapGet sh.heap lastAddr) c],
                     sh.out ++ [sh.heap.length], sh.current_external_law,
                     sh.current_internal_article_idx⟩ := by
                  simp [consStepH, hga, hc1, hc2, h34b, hg, hl, hcond, hcol]
                have hF := agreeParts_fork fs a
                  (forkFromExternal (heapGet sh.heap lastAddr) c) sh sp h1
                  h4 h5 h6 h7
                rw [hH, consStep_eq_sfon34_extFork sp c
                  (heapGet sh.heap lastAddr) h34 hplast hxP hpc.1
                  (by rw [h2]; exact hpc.2) hcol]
                exact ⟨hF.1, h2, h3, hF.2.1, hF.2.2.1, hF.2.2.2.1,
                  hF.2.2.2.2⟩
              · -- merge into the external entry, both models
                have hH : consStepH sh a =
                    ⟨sh.heap.set lastAddr
                      (mergeParaItem (heapGet sh.heap lastAddr) c),
                     sh.out, sh.current_external_law,
                     sh.current_internal_article_idx⟩ := by
                  simp [consStepH, hga, hc1, hc2, h34b, hg, hl, hcond,
                    Bool.eq_false_iff.2 hcol]
                have hpj : sh.out.get? (sh.out.length - 1) =
                    some lastAddr := by
                  rw [List.get?_eq_getElem?, ← List.getLast?_eq_getElem?]
                  exact hl
                have hM := agreeParts_setMember fs a
                  (mergeParaItem (heapGet sh.heap lastAddr) c) sh sp
                  (sh.out.length - 1) lastAddr h1 h4 h5 h6 h7 hpj
                rw [hH, consStep_eq_sfon34_extMerge sp c
                  (heapGet sh.heap lastAddr) h34 hplast hxP hpc.1
                  (by rw [h2]; exact hpc.2) (Bool.eq_false_iff.2 hcol)]
                refine ⟨?_, h2, h3, hM.2.1, hM.2.2.1, hM.2.2.2.1,
                  hM.2.2.2.2⟩
                rw [hlen_eq]
                exact hM.1
            · -- mismatch: standalone, both models
              have hcondP : ((heapGet sh.heap lastAddr).citation_type ==
                  "external" && (heapGet sh.heap lastAddr).target_law_name ==
                  sp.current_external_law) = false := by
                rw [h2]
                exact Bool.eq_false_iff.2 hcond
              have hH : consStepH sh a =
                  ⟨sh.heap.set a { c with citation_type := "internal" },
                   sh.out ++ [a], sh.current_external_law,
                   sh.current_internal_article_idx⟩ := by
                simp [consStepH, hga, hc1, hc2, h34b, hg, hl,
                  Bool.eq_false_iff.2 hcond]
              rw [hH, consStep_eq_sfon34_extMismatch sp c
                (heapGet sh.heap lastAddr) h34 hplast hxP hcondP]
              exact ⟨hA.1, h2, h3, hA.2.1, hA.2.2.1, hA.2.2.2.1,
                hA.2.2.2.2⟩
        · -- no external context: the internal branch, both models
          have hgF : (truthyS sh.current_external_law &&
              decide (0 < sh.out.length)) = false := Bool.eq_false_iff.2 hg
          have hgP := hgP_of hgF
          rcases hidx : sh.current_internal_article_idx with _ | j
          · have hH : consStepH sh a =
                ⟨sh.heap.set a { c with citation_type := "internal" },
                 sh.out ++ [a], sh.current_external_law,
                 sh.current_internal_article_idx⟩ := by
              simp [consStepH, hga, hc1, hc2, h34b, hgF, hidx]
            rw [hH, consStep_eq_sfon34_idxNone sp c h34 hgP
              (by rw [h3]; exact hidx)]
            exact ⟨hA.1, h2, h3, hA.2.1, hA.2.2.1, hA.2.2.2.1, hA.2.2.2.2⟩
          · rcases hj : sh.out.get? j with _ | tgtAddr
            · have hj2 : sh.out[j]? = none := by
                rw [← List.get?_eq_getElem?]
                exact hj
              have hjP : sp.out.get? j = none := by
                rw [h1, List.get?_map, hj]
                rfl
              have hH : consStepH sh a =
                  ⟨sh.heap.set a { c with citation_type := "internal" },
                   sh.out ++ [a], sh.current_external_law,
                   sh.current_internal_article_idx⟩ := by
                simp [consStepH, hga, hc1, hc2, h34b, hgF, hidx, hj2]
              rw [hH, consStep_eq_sfon34_idxBad sp c j h34 hgP
                (by rw [h3]; exact hidx) hjP]
              exact ⟨hA.1, h2, h3, hA.2.1, hA.2.2.1, hA.2.2.2.1,
                hA.2.2.2.2⟩
            · have hj2 : sh.out[j]? = some tgtAddr := by
                rw [← List.get?_eq_getElem?]
                exact hj
              have hjP : sp.out.get? j =
                  some (heapGet sh.heap tgtAddr) := by
                rw [h1, List.get?_map, hj]
                rfl
              by_cases hcond : ((heapGet sh.heap tgtAddr).citation_type ==
                  "internal" && truthyN
                    (heapGet sh.heap tgtAddr).target_article) = true
              · have hpc : (heapGet sh.heap tgtAddr).citation_type =
                    "internal" ∧ truthyN
                      (heapGet sh.heap tgtAddr).target_article = true := by
                  simpa using hcond
                by_cases hcol : collide c (heapGet sh.heap tgtAddr) = true
                · -- fork from the internal entry, both models
                  have hH : consStepH sh a =
                      ⟨sh.heap ++ [forkFromInternal
                          (heapGet sh.heap tgtAddr) c],
                       sh.out ++ [sh.heap.length], sh.current_external_law,
                       sh.current_internal_article_idx⟩ := by
                    simp [consStepH, hga, hc1, hc2, h34b, hgF, hidx, hj2,
                      hcond, hcol]
                  have hF := agreeParts_fork fs a
                    (forkFromInternal (heapGet sh.heap tgtAddr) c) sh sp h1
                    h4 h5 h6 h7
                  rw [hH, consStep_eq_sfon34_intFork sp c
                    (heapGet sh.heap tgtAddr) j h34 hgP
                    (by rw [h3]; exact hidx) hjP hpc.1 hpc.2 hcol]
                  exact ⟨hF.1, h2, h3, hF.2.1, hF.2.2.1, hF.2.2.2.1,
                    hF.2.2.2.2⟩
                · -- merge into the internal entry, both models
                  have hH : consStepH sh a =
                      ⟨sh.heap.set tgtAddr
                        (mergeParaItem (heapGet sh.heap tgtAddr) c),
                       sh.out, sh.current_external_law,
                       sh.current_internal_article_idx⟩ := by
                    simp [consStepH, hga, hc1, hc2, h34b, hgF, hidx, hj2,
                      hcond, Bool.eq_false_iff.2 hcol]
                  have hM := agreeParts_setMember fs a
                    (mergeParaItem (heapGet sh.heap tgtAddr) c) sh sp j
                    tgtAddr h1 h4 h5 h6 h7 hj
                  rw [hH, consStep_eq_sfon34_intMerge sp c
                    (heapGet sh.heap tgtAddr) j h34 hgP
                    (by rw [h3]; exact hidx) hjP hpc.1 hpc.2
                    (Bool.eq_false_iff.2 hcol)]
                  exact ⟨hM.1, h2, h3, hM.2.1, hM.2.2.1, hM.2.2.2.1,
                    hM.2.2.2.2⟩
              · -- unusable internal target: standalone, both models
                have hH : consStepH sh a =
                    ⟨sh.heap.set a { c with citation_type := "internal" },
                     sh.out ++ [a], sh.current_external_law,
                     sh.current_internal_article_idx⟩ := by
                  simp [consStepH, hga, hc1, hc2, h34b, hgF, hidx, hj2,
                    Bool.eq_false_iff.2 hcond]
                rw [hH, consStep_eq_sfon34_intStandalone sp c
                  (heapGet sh.heap tgtAddr) j h34 hgP
                  (by rw [h3]; exact hidx) hjP (Bool.eq_false_iff.2 hcond)]
                exact ⟨hA.1, h2, h3, hA.2.1, hA.2.2.1, hA.2.2.2.1,
                  hA.2.2.2.2⟩
      · -- unclassified marker: both models leave the state unchanged
        have h3c : c.link_class ≠ "sfon3" := fun hq =>
          h34 (by simp [isSfon34, hq])
        have h4c : c.link_class ≠ "sfon4" := fun hq =>
          h34 (by simp [isSfon34, hq])
        have hH : consStepH sh a = sh := by
          simp [consStepH, hga, hc1, hc2, h3c, h4c]
        rw [hH, consStep_eq_other sp c hc1 hc2 h3c h4c]
        refine ⟨h1, h2, h3, h4, fun i hi1 hi2 => h5 i (by omega) hi2,
          ?_, h7⟩
        intro p hp
        obtain ⟨hb, hd⟩ := h6 p hp
        refine ⟨hb, ?_⟩
        rcases hd with h | h
        · exact Or.inl (by omega)
        · exact Or.inr h

/-- Running the remaining iterations preserves the simulation to the end. -/
theorem steps_agree (fs : List Citation) (m : Nat) :
    ∀ (a : Nat) (sh : HeapState) (sp : ConsState),
      a + m = fs.length →
      HeapAgree fs a sh sp →
      HeapAgree fs (a + m)
        ((List.range' a m).foldl consStepH sh)
        ((fs.drop a).foldl consStep sp) := by
  induction m with
  | zero =>
    intro a sh sp hlen hag
    have hdrop : fs.drop a = [] := by
      rw [List.drop_eq_nil_iff_le]
      omega
    simpa [hdrop] using hag
  | succ m ih =>
    intro a sh sp hlen hag
    have halt : a < fs.length := by omega
    have hdrop : fs.drop a = fs[a] :: fs.drop (a + 1) :=
      List.drop_eq_getElem_cons halt
    have hc : fs.get? a = some fs[a] := by
      rw [List.get?_eq_getElem?]
      exact List.getElem?_eq_getElem halt
    have hstep := step_agree fs a fs[a] sh sp hc hag
    have hih := ih (a + 1) (consStepH sh a) (consStep sp fs[a])
      (by omega) hstep
    rw [List.range'_succ, List.foldl_cons, hdrop, List.foldl_cons]
    have hidx : a + 1 + m = a + (m + 1) := by omega
    rw [hidx] at hih
    exact hih

/-- The heap model realizes the value model: reading the final output
addresses out of the final heap yields exactly `consolidate`. -/
theorem consolidateH_realizes (fs : List Citation) :
    (consolidateH fs).out.map (heapGet (consolidateH fs).heap) =
      consolidate fs := by
  have hinit : HeapAgree fs 0 ⟨fs, [], none, none⟩ consInit := by
    refine ⟨rfl, rfl, rfl, Nat.le_refl _, fun i _ _ => rfl,
      fun p hp => absurd hp (List.not_mem_nil p), List.nodup_nil⟩
  have hrun := steps_agree fs fs.length 0 ⟨fs, [], none, none⟩ consInit
    (by omega) hinit
  rw [List.drop_zero] at hrun
  have hH : consolidateH fs =
      (List.range' 0 fs.length).foldl consStepH ⟨fs, [], none, none⟩ := by
    rw [consolidateH, List.range_eq_range']
  rw [hH]
  exact (hrun.1).symm

end LexLink
